import Mathlib

/-!
# go-validation: a shallow embedding of `validation/validation.go`

The Go package is a fluent request-field validator built on a `Validator`
value holding a map from field names to `Field` records and a cursor
(`CurrentField`).  This file embeds the data model and the operations of
`validation.go` as Lean functions and proves properties of them.

Modelling conventions.

* Go strings are modelled by Lean `String`s (valid Unicode text).
* The untyped slot `Field.Value` (`interface{}`) is the inductive `Value`:
  only `nil`, strings, `int`s and `float32`s are ever stored in it.
* A failed unchecked type assertion `x.(string)` panics; operations that can
  panic return `Option`, with `none` for the panic.
* `map[string]Field` is an association list with `get` (zero value for a
  missing key) and `set`; a `range` loop visits the entries in an arbitrary
  order, modelled by `RangeOrder`, a permutation of the entries.
* The `*gin.Context` is the record `Context` of its four lookup functions.
* `error` values are `Option String`: `none` is `nil`, `some msg` is
  `errors.New(msg)`.
* Library functions (`strconv.ParseInt`, `strings.Split`, `strings.ToLower`)
  are modelled after the Go standard library. Two tables of the library are
  parameters: the Unicode case mapping above ASCII (`tbl`) and the parser of
  floating-point numbers (`parseFloat`).
-/

namespace Validation

/-! ## Constants -/

def DefaultDataType : String := "string"
def StringDataType : String := "string"
def IntDataType : String := "int"
def FloatDataType : String := "float"
def FileDataType : String := "file"

def TypeFormData : String := "form-data"
def TypeMultipartFile : String := "multipart-file"
def TypeFormURLEncoded : String := "form-urlencoded"
def TypeURLParam : String := "url-param"
def TypeQueryString : String := "query-string"

/-! ## Data model -/

/-- The dynamic values stored in `Field.Value` (Go `interface{}`): `nil`, a
`string`, an `int`, or a `float32` (kept as its bit pattern). -/
inductive Value where
  | nil
  | str (s : String)
  | int (i : ℤ)
  | float32 (bits : Nat)
  deriving DecidableEq

/-- A `multipart.FileHeader`: its `Filename` and the outcome of `Open()`
(`none` when opening fails). -/
structure FileHeader where
  Filename : String
  Open : Option String
  deriving DecidableEq

/-- The Go struct `Field`. `File` is a pointer: `none` is `nil`. -/
structure Field where
  Name : String
  FieldType : String
  Value : Value
  File : Option FileHeader
  FileName : String
  FileExtension : String
  DataType : String
  DefaultValue : String
  ErrMsg : String
  Required : Bool
  deriving DecidableEq

/-- The Go struct `File` returned by `Validator.File()`. -/
structure File where
  Content : Option String
  Name : String
  Extension : String
  deriving DecidableEq

/-- The zero value of `Field`, which Go yields for a missing map key. -/
def Field.zero : Field :=
  { Name := "", FieldType := "", Value := Value.nil, File := none, FileName := "",
    FileExtension := "", DataType := "", DefaultValue := "", ErrMsg := "",
    Required := false }

/-- A `map[string]Field` as an association list. -/
abbrev FieldMap := List (String × Field)

/-- Map read `m[k]`: the stored entry, or the zero `Field` when `k` is missing. -/
def FieldMap.get : FieldMap → String → Field
  | [], _ => Field.zero
  | (k', f) :: rest, k => if k' = k then f else FieldMap.get rest k

/-- Map write `m[k] = f`: replaces the entry of `k`, or adds one. -/
def FieldMap.set : FieldMap → String → Field → FieldMap
  | [], k, f => [(k, f)]
  | (k', f') :: rest, k, f =>
    if k' = k then (k, f) :: rest else (k', f') :: FieldMap.set rest k f

/-- One possible order in which a `range` loop visits the entries of a map. -/
structure RangeOrder (m : FieldMap) where
  entries : List (String × Field)
  perm : entries.Perm m

/-- The order in which the entries are stored. -/
def RangeOrder.stored (m : FieldMap) : RangeOrder m := ⟨m, List.Perm.refl m⟩

/-- The request-data operations of `*gin.Context` used by the validator.
`FormFile` returns `none` when gin reports an error. -/
structure Context where
  DefaultQuery : String → String → String
  Param : String → String
  DefaultPostForm : String → String → String
  FormFile : String → Option FileHeader

/-- The Go struct `Validator`. -/
structure Validator where
  Context : Context
  Fields : FieldMap
  CurrentField : String

def New (ctxPtr : Context) : Validator :=
  { Context := ctxPtr, Fields := [], CurrentField := "" }

def FromRequest (ctxPtr : Context) : Validator :=
  { Context := ctxPtr, Fields := [], CurrentField := "" }

/-! ## Library models -/

/-- The Go function `unicode.ToLower` on one rune: fixed on ASCII, and given by
the table `tbl` of the Unicode case mapping on the other runes. -/
def unicodeToLower (tbl : Char → Char) (r : Char) : Char :=
  if r.toNat ≤ 127 then
    if 65 ≤ r.toNat ∧ r.toNat ≤ 90 then Char.ofNat (r.toNat + 32) else r
  else tbl r

/-- The Go function `strings.ToLower`: maps `unicode.ToLower` over the runes. -/
def stringsToLower (tbl : Char → Char) (s : String) : String :=
  ⟨s.data.map (unicodeToLower tbl)⟩

/-- The loop of `strings.Split(s, ".")`: `cur` holds, reversed, the runes of
the piece being read. -/
def splitDotAux : List Char → List Char → List (List Char)
  | [], cur => [cur.reverse]
  | c :: cs, cur =>
    if c = '.' then cur.reverse :: splitDotAux cs [] else splitDotAux cs (c :: cur)

/-- The Go call `strings.Split(s, ".")`. -/
def stringsSplitDot (s : String) : List String :=
  (splitDotAux s.data []).map String.mk

/-- The two errors of `strconv`. -/
inductive NumError where
  | ErrSyntax
  | ErrRange
  deriving DecidableEq

def maxUint64 : Nat := 2 ^ 64 - 1

/-- The byte helper `lower(c)` of `strconv`: `c | ('x' - 'X')`. -/
def strconvLower (c : Nat) : Nat := c ||| 32

/-- The digit value `d` that the loop of `ParseUint` gives to a byte, `none`
for its `default:` case (a syntax error). The loop is run on the codes of the
runes: every byte of a rune above ASCII is at least `128` and falls, like
the rune's code, in the `default:` case. The case `c == '_' && base0` is
absent since the base is `10`. -/
def digitOfByte (c : Nat) : Option Nat :=
  if 48 ≤ c ∧ c ≤ 57 then some (c - 48)
  else if 97 ≤ strconvLower c ∧ strconvLower c ≤ 122 then some (strconvLower c - 97 + 10)
  else none

/-- The loop of `strconv.ParseUint(s, 10, bitSize)` over the remaining input,
with `n` the `uint64` accumulator. Arithmetic wraps modulo `2 ^ 64`. -/
def parseUintLoop (maxVal : Nat) : List Char → Nat → Nat × Option NumError
  | [], n => (n, none)
  | c :: cs, n =>
    match digitOfByte c.toNat with
    | none => (0, some NumError.ErrSyntax)
    | some d =>
      if d ≥ 10 then (0, some NumError.ErrSyntax)
      else if n ≥ maxUint64 / 10 + 1 then (maxVal, some NumError.ErrRange)
      else
        let n10 := (n * 10) % 2 ^ 64
        let n1 := (n10 + d) % 2 ^ 64
        if n1 < n10 ∨ n1 > maxVal then (maxVal, some NumError.ErrRange)
        else parseUintLoop maxVal cs n1

/-- The Go call `strconv.ParseUint(s, 10, bitSize)` for `0 < bitSize ≤ 64`:
the value and the error (`none` for `nil`); `maxVal` is `1<<bitSize - 1`. -/
def ParseUint (s : List Char) (bitSize : Nat) : Nat × Option NumError :=
  if s = [] then (0, some NumError.ErrSyntax)
  else parseUintLoop (2 ^ bitSize - 1) s 0

/-- The Go call `strconv.ParseInt(s, 10, bitSize)` for `0 < bitSize ≤ 64`:
the parsed value and the error (`none` for `nil`). A syntax error of
`ParseUint` is returned with the value `0`; a value beyond the cutoff is
replaced by the nearest bound and returned with `ErrRange`. -/
def ParseInt (s : String) (bitSize : Nat) : ℤ × Option NumError :=
  match s.data with
  | [] => (0, some NumError.ErrSyntax)
  | c :: rest =>
    let neg := decide (c = '-')
    let body := if c = '+' ∨ c = '-' then rest else c :: rest
    let r := ParseUint body bitSize
    if r.2 ≠ none ∧ r.2 ≠ some NumError.ErrRange then (0, r.2)
    else
      let un := r.1
      let cutoff := 2 ^ (bitSize - 1)
      if !neg ∧ un ≥ cutoff then ((cutoff : ℤ) - 1, some NumError.ErrRange)
      else if neg ∧ un > cutoff then (-(cutoff : ℤ), some NumError.ErrRange)
      else (if neg then -(un : ℤ) else (un : ℤ), none)

/-! ## The package `validation` -/

def GetFileExtension (tbl : Char → Char) (fileName : String) : String :=
  let names := stringsSplitDot fileName
  let fileExtension := if names.length ≥ 2 then names.getLastD "" else ""
  stringsToLower tbl fileExtension

/-- The local variables of `AddField` after its `switch`. -/
structure Extraction where
  err : Option String
  fieldValue : String
  fileName : String
  fileExtension : String
  fileHeaderPtr : Option FileHeader

/-- The `switch fieldType` of `AddField`: every local variable starts at its
zero value and the selected branch assigns some of them. -/
def extract (tbl : Char → Char) (ctx : Context) (fieldName fieldType : String) : Extraction :=
  let zero : Extraction :=
    { err := none, fieldValue := "", fileName := "", fileExtension := "", fileHeaderPtr := none }
  if fieldType = TypeQueryString then
    { zero with fieldValue := ctx.DefaultQuery fieldName "" }
  else if fieldType = TypeURLParam then
    { zero with fieldValue := ctx.Param fieldName }
  else if fieldType = TypeFormData then
    { zero with fieldValue := ctx.DefaultPostForm fieldName "" }
  else if fieldType = TypeFormURLEncoded then
    { zero with fieldValue := ctx.DefaultPostForm fieldName "" }
  else if fieldType = TypeMultipartFile then
    match ctx.FormFile fieldName with
    | none =>
      { zero with err := some "file not found", fileHeaderPtr := none,
                  fileExtension := "", fileName := "" }
    | some fileHeader =>
      { zero with fileHeaderPtr := some fileHeader, fileName := fileHeader.Filename,
                  fileExtension := GetFileExtension tbl fileHeader.Filename }
  else
    { zero with fieldValue := ctx.DefaultPostForm fieldName "" }

/-- The `Field` that `AddField` builds from its local variables: the branch
`err != nil` or the other one. -/
def newField (x : Extraction) (fieldName fieldType : String) : Field :=
  match x.err with
  | some msg =>
    { Name := fieldName, FieldType := fieldType, Value := Value.str "", File := none,
      FileName := x.fileName, FileExtension := x.fileExtension,
      DataType := DefaultDataType, DefaultValue := "", ErrMsg := msg, Required := false }
  | none =>
    { Name := fieldName, FieldType := fieldType, Value := Value.str x.fieldValue,
      File := x.fileHeaderPtr, FileName := x.fileName, FileExtension := x.fileExtension,
      DataType := DefaultDataType, DefaultValue := "", ErrMsg := "", Required := false }

/-- The method `AddField`; `tbl` is the case table used by `GetFileExtension`. -/
def Validator.AddField (tbl : Char → Char) (v : Validator) (fieldName fieldType : String) :
    Validator :=
  let x := extract tbl v.Context fieldName fieldType
  { v with Fields := v.Fields.set fieldName (newField x fieldName fieldType),
           CurrentField := fieldName }

def Validator.Multipart (tbl : Char → Char) (v : Validator) (fieldName : String) : Validator :=
  v.AddField tbl fieldName TypeMultipartFile

def Validator.Form (tbl : Char → Char) (v : Validator) (fieldName : String) : Validator :=
  v.AddField tbl fieldName TypeFormURLEncoded

def Validator.FormData (tbl : Char → Char) (v : Validator) (fieldName : String) : Validator :=
  v.AddField tbl fieldName TypeFormData

def Validator.Query (tbl : Char → Char) (v : Validator) (fieldName : String) : Validator :=
  v.AddField tbl fieldName TypeQueryString

def Validator.Param (tbl : Char → Char) (v : Validator) (fieldName : String) : Validator :=
  v.AddField tbl fieldName TypeURLParam

/-- The method `Required`; `none` when the assertion `Value.(string)` panics. -/
def Validator.Required (v : Validator) : Option Validator :=
  let currentFieldName := v.CurrentField
  let tmpField := { v.Fields.get currentFieldName with Required := true }
  match tmpField.Value with
  | Value.str s =>
    let textNotOK := decide (s = "")
    let fileNotOK := tmpField.File.isNone
    let tmpField :=
      if textNotOK ∧ fileNotOK then
        { tmpField with
          ErrMsg := "`" ++ tmpField.Name ++ "` must be specified in " ++ tmpField.FieldType }
      else tmpField
    some { v with Fields := v.Fields.set currentFieldName tmpField }
  | _ => none

def Validator.Optional (v : Validator) : Validator :=
  let currentFieldName := v.CurrentField
  let tmpField := { v.Fields.get currentFieldName with Required := false }
  { v with Fields := v.Fields.set currentFieldName tmpField }

/-- The method `Default`; its argument is an `interface{}` asserted to be a
string, `none` when that assertion panics. -/
def Validator.Default (v : Validator) (defaultValue : Value) : Option Validator :=
  let currentFieldName := v.CurrentField
  match defaultValue with
  | Value.str d =>
    let tmpField := { v.Fields.get currentFieldName with DefaultValue := d }
    some { v with Fields := v.Fields.set currentFieldName tmpField }
  | _ => none

def Validator.Error (v : Validator) (errMsg : String) : Validator :=
  let currentFieldName := v.CurrentField
  let tmpField := { v.Fields.get currentFieldName with ErrMsg := errMsg }
  { v with Fields := v.Fields.set currentFieldName tmpField }

def Validator.CheckIfUnwantedFieldsExist (_v : Validator) : Bool := false

/-- The method `CheckIfEmpty`, ranging over the map in the order `o`. -/
def Validator.CheckIfEmpty (v : Validator) (o : RangeOrder v.Fields) : Bool :=
  let count := o.entries.foldl
    (fun count kv => if kv.2.Value ≠ Value.nil then count + 1 else count) 0
  count == 0

/-- The second loop of `Done`: the message of the first visited field that is
required and has a non-empty `ErrMsg`. -/
def firstRequiredError : List (String × Field) → Option String
  | [] => none
  | (_, field) :: rest =>
    if field.Required ∧ field.ErrMsg ≠ "" then some field.ErrMsg
    else firstRequiredError rest

/-- The method `Done`; its two `range` loops visit the map in the orders `o₁`
and `o₂`. -/
def Validator.Done (v : Validator) (o₁ o₂ : RangeOrder v.Fields) : Option String :=
  if v.CheckIfEmpty o₁ then some "all inputs cannot be empty"
  else firstRequiredError o₂.entries

/-- The message appended by a failed coercion to the type named `dataType`. -/
def coercionMsg (tmpField : Field) : String :=
  if tmpField.ErrMsg = "" then tmpField.Name ++ " must be " ++ tmpField.DataType
  else " and the value must be " ++ tmpField.DataType

/-- The method `File`: the returned pointer (`none` for `nil`) and the
validator afterwards. With a nil file pointer it returns before the map
is written. -/
def Validator.File (v : Validator) : Option File × Validator :=
  let currentFieldName := v.CurrentField
  let tmpField := { v.Fields.get currentFieldName with DataType := FileDataType }
  match tmpField.File with
  | none => (none, v)
  | some fileHeader =>
    (some { Content := fileHeader.Open, Name := tmpField.FileName,
            Extension := tmpField.FileExtension },
     { v with Fields := v.Fields.set currentFieldName tmpField })

/-- The method `Int`: the returned `int` and the validator afterwards; `none`
when the assertion `Value.(string)` panics. The value of `ParseInt` lies in
the 32-bit range, so the conversion `int(value)` keeps it. -/
def Validator.Int (v : Validator) : Option (ℤ × Validator) :=
  let currentFieldName := v.CurrentField
  let tmpField := { v.Fields.get currentFieldName with DataType := IntDataType }
  match tmpField.Value with
  | Value.str s =>
    let (value, err) := ParseInt s 32
    let tmpField :=
      if err ≠ none then { tmpField with ErrMsg := tmpField.ErrMsg ++ coercionMsg tmpField }
      else tmpField
    let tmpField := { tmpField with Value := Value.int value }
    some (value, { v with Fields := v.Fields.set currentFieldName tmpField })
  | _ => none

/-- The method `Float32`: the bits of the returned `float32` and the validator
afterwards; `none` when the assertion `Value.(string)` panics. The function
`parseFloat` stands for `strconv.ParseFloat(s, 32)` converted to `float32`:
the bits of the value and whether an error is returned. -/
def Validator.Float32 (parseFloat : String → Nat × Bool) (v : Validator) :
    Option (Nat × Validator) :=
  let currentFieldName := v.CurrentField
  let tmpField := { v.Fields.get currentFieldName with DataType := FloatDataType }
  match tmpField.Value with
  | Value.str s =>
    let (value, failed) := parseFloat s
    let tmpField :=
      if failed then { tmpField with ErrMsg := tmpField.ErrMsg ++ coercionMsg tmpField }
      else tmpField
    let tmpField := { tmpField with Value := Value.float32 value }
    some (value, { v with Fields := v.Fields.set currentFieldName tmpField })
  | _ => none

/-- The method `String`: the checked assertion `Value.(string)` never panics. -/
def Validator.String (v : Validator) : String × Validator :=
  let currentFieldName := v.CurrentField
  let tmpField := { v.Fields.get currentFieldName with DataType := StringDataType }
  match tmpField.Value with
  | Value.str strValue =>
    (strValue, { v with Fields := v.Fields.set currentFieldName tmpField })
  | _ =>
    let tmpField := { tmpField with ErrMsg := tmpField.ErrMsg ++ coercionMsg tmpField }
    let tmpField := { tmpField with Value := Value.str "" }
    ("", { v with Fields := v.Fields.set currentFieldName tmpField })

/-! ## Reading a text as a base-10 integer -/

/-- A decimal digit, `0` to `9`. -/
def isDecDigit (c : Char) : Bool := decide (48 ≤ c.toNat ∧ c.toNat ≤ 57)

/-- The number written by the digits `ds` after the digits of `n`. -/
def decValueFrom (n : Nat) (ds : List Char) : Nat :=
  ds.foldl (fun n c => n * 10 + (c.toNat - 48)) n

/-- The number written in base 10 by the digits `ds`. -/
def decValue (ds : List Char) : Nat := decValueFrom 0 ds

/-- Whether the text starts with a minus sign. -/
def hasMinus (s : String) : Bool := s.data.head? = some '-'

/-- The text without its leading sign, if it has one. -/
def unsignedPart (s : String) : List Char :=
  match s.data with
  | [] => []
  | c :: rest => if c = '+' ∨ c = '-' then rest else c :: rest

/-- The text is written as a base-10 integer: an optional sign, then one or
more decimal digits. -/
def isDecimalInteger (s : String) : Bool :=
  !(unsignedPart s).isEmpty && (unsignedPart s).all isDecDigit

/-- The integer written by a text that `isDecimalInteger`. -/
def decimalInteger (s : String) : ℤ :=
  if hasMinus s then -(decValue (unsignedPart s) : ℤ) else (decValue (unsignedPart s) : ℤ)

/-- The text is a base-10 integer fitting the signed 32-bit range. -/
def IsInt32Text (s : String) : Prop :=
  isDecimalInteger s = true ∧ -2147483648 ≤ decimalInteger s ∧ decimalInteger s ≤ 2147483647

/-- The digits at the start of the text, after its sign. -/
def leadingDigits (s : String) : List Char := (unsignedPart s).takeWhile isDecDigit

instance decIsInt32Text (s : String) : Decidable (IsInt32Text s) := by
  unfold IsInt32Text
  infer_instance

/-! ## Requests and states used as concrete inputs -/

/-- A request without any value: every lookup yields its default and no file
is uploaded. -/
def emptyContext : Context :=
  { DefaultQuery := fun _ d => d, Param := fun _ => "", DefaultPostForm := fun _ d => d,
    FormFile := fun _ => none }

/-- A request whose form holds the single pair `age=30`. -/
def ageContext : Context :=
  { emptyContext with DefaultPostForm := fun k d => if k = "age" then "30" else d }

/-- A request whose query string gives `42` for every parameter. -/
def answerContext : Context :=
  { emptyContext with DefaultQuery := fun _ _ => "42" }

/-- A request whose form gives the digits `99999999999` for every field. -/
def bigContext : Context :=
  { emptyContext with DefaultPostForm := fun _ _ => "99999999999" }

/-- A request whose form gives the text `abc` for every field. -/
def abcContext : Context :=
  { emptyContext with DefaultPostForm := fun _ _ => "abc" }

/-- A validator with one required field that holds an empty string and
carries, through `Error`, the text of the all-empty error. -/
def sameTextState : Validator :=
  { Context := emptyContext,
    Fields := [("a", { Name := "a", FieldType := "form-urlencoded", Value := Value.str "",
                       File := none, FileName := "", FileExtension := "",
                       DataType := "string", DefaultValue := "",
                       ErrMsg := "all inputs cannot be empty", Required := true })],
    CurrentField := "a" }

/-- A validator with a required field in error, a field that is not required
and in error after a failed `Int`, and a field without error. -/
def mixedState : Validator :=
  { Context := emptyContext,
    Fields := [("age", { Name := "age", FieldType := "form-urlencoded", Value := Value.int 0,
                         File := none, FileName := "", FileExtension := "",
                         DataType := "int", DefaultValue := "",
                         ErrMsg := "age must be int", Required := false }),
               ("id", { Name := "id", FieldType := "url-param", Value := Value.str "",
                        File := none, FileName := "", FileExtension := "",
                        DataType := "string", DefaultValue := "",
                        ErrMsg := "`id` must be specified in url-param", Required := true }),
               ("q", { Name := "q", FieldType := "query-string", Value := Value.str "x",
                       File := none, FileName := "", FileExtension := "",
                       DataType := "string", DefaultValue := "",
                       ErrMsg := "", Required := true })],
    CurrentField := "q" }

/-- The validator `mixedState` without its required field in error. -/
def toleratedState : Validator :=
  { mixedState with Fields := [mixedState.Fields.get "age", mixedState.Fields.get "q"].map
                      (fun f => (f.Name, f)) }

/-! ## Sequences of calls -/

/-- One call on a validator: an extraction call (the five shortcuts are
`addField` with their source kind), a modifier or a terminal coercion. -/
inductive Op where
  | addField (fieldName fieldType : String)
  | required
  | optional
  | setDefault (defaultValue : Value)
  | setError (errMsg : String)
  | string
  | int
  | float32
  | file

/-- What a call hands back to the caller besides the validator. -/
inductive Returned where
  | validator
  | text (s : String)
  | number (i : ℤ)
  | bits (b : Nat)
  | filePtr (f : Option File)
  deriving DecidableEq

/-- The returned value and the validator after one call; `none` when the call
panics. -/
def call (tbl : Char → Char) (parseFloat : String → Nat × Bool) :
    Op → Validator → Option (Returned × Validator)
  | Op.addField n s, v => some (Returned.validator, v.AddField tbl n s)
  | Op.required, v => v.Required.map (fun v' => (Returned.validator, v'))
  | Op.optional, v => some (Returned.validator, v.Optional)
  | Op.setDefault d, v => (v.Default d).map (fun v' => (Returned.validator, v'))
  | Op.setError m, v => some (Returned.validator, v.Error m)
  | Op.string, v => some (Returned.text v.String.1, v.String.2)
  | Op.int, v => v.Int.map (fun p => (Returned.number p.1, p.2))
  | Op.float32, v => (v.Float32 parseFloat).map (fun p => (Returned.bits p.1, p.2))
  | Op.file, v => some (Returned.filePtr v.File.1, v.File.2)

/-- The returned values, in order, and the validator after a sequence of
calls; `none` when one of them panics. -/
def run (tbl : Char → Char) (parseFloat : String → Nat × Bool) :
    List Op → Validator → Option (List Returned × Validator)
  | [], v => some ([], v)
  | op :: ops, v =>
    match call tbl parseFloat op v with
    | none => none
    | some (r, v') =>
      match run tbl parseFloat ops v' with
      | none => none
      | some (rs, w) => some (r :: rs, w)

/-- The names under which the map holds an entry. -/
def FieldMap.keys (m : FieldMap) : List String := m.map Prod.fst


/-- A validator on which `age` was registered and made required without a
value, and `id` was registered from the path. -/
def twoFieldState : Validator :=
  { Context := emptyContext,
    Fields := [("age", { Name := "age", FieldType := "form-urlencoded", Value := Value.str "",
                         File := none, FileName := "", FileExtension := "",
                         DataType := "string", DefaultValue := "",
                         ErrMsg := "`age` must be specified in form-urlencoded",
                         Required := true }),
               ("id", { Name := "id", FieldType := "url-param", Value := Value.str "",
                        File := none, FileName := "", FileExtension := "",
                        DataType := "string", DefaultValue := "", ErrMsg := "",
                        Required := false })],
    CurrentField := "id" }


/-- No message is cleared between `v` and `v'`: every field with a non-empty
`ErrMsg` in `v` has a non-empty `ErrMsg` in `v'`. -/
def KeepsErrors (v v' : Validator) : Prop :=
  ∀ k, (v.Fields.get k).ErrMsg ≠ "" → (v'.Fields.get k).ErrMsg ≠ ""

/-- The calls other than `Error` with the empty message and an extraction
call for a name whose entry carries a message. -/
def Op.sparesErrors (v : Validator) : Op → Prop
  | Op.setError m => m ≠ ""
  | Op.addField n _ => (v.Fields.get n).ErrMsg = ""
  | _ => True

/-- The validator after `Form("age").Required()` on a request without
values. -/
def requiredAgeState : Validator :=
  { Context := emptyContext,
    Fields := [("age", { Name := "age", FieldType := "form-urlencoded", Value := Value.str "",
                         File := none, FileName := "", FileExtension := "",
                         DataType := "string", DefaultValue := "",
                         ErrMsg := "`age` must be specified in form-urlencoded",
                         Required := true })],
    CurrentField := "age" }


/-- The maps `m` and `m'` agree outside the key `k`: they give the same field
for every other key and hold the same entries under the other keys. -/
def LeavesOthers (k : String) (m m' : FieldMap) : Prop :=
  (∀ k', k' ≠ k → m'.get k' = m.get k') ∧
  (∀ e : String × Field, e.1 ≠ k → (e ∈ m' ↔ e ∈ m))


/-- The cursor is a key of the map and every entry is stored under its name. -/
def WellFormed (v : Validator) : Prop :=
  v.CurrentField ∈ v.Fields.keys ∧ ∀ e ∈ v.Fields, e.2.Name = e.1


/-- The modifiers `Required()`, `Optional()`, `Default(d)` with a string `d`
and `Error(m)`. -/
def Op.isModifier : Op → Prop
  | Op.required => True
  | Op.optional => True
  | Op.setDefault (Value.str _) => True
  | Op.setError _ => True
  | _ => False

/-- What the calls `pre` made so far tell about the value of the current
field: it is a string, or it is a number and `pre` holds an `Int()` or a
`Float32()`, or `pre` holds no extraction call. -/
def ValueHistory (pre : List Op) (v : Validator) : Prop :=
  (∃ t, (v.Fields.get v.CurrentField).Value = Value.str t) ∨
  (((∃ i, (v.Fields.get v.CurrentField).Value = Value.int i) ∨
      ∃ b, (v.Fields.get v.CurrentField).Value = Value.float32 b) ∧
    (Op.int ∈ pre ∨ Op.float32 ∈ pre)) ∨
  (∀ n s, Op.addField n s ∉ pre)


/-- The field with its default value erased. -/
def Field.withoutDefault (f : Field) : Field := { f with DefaultValue := "" }

/-- The maps hold, entry by entry, the same keys and the same fields up to
their default values. -/
def SameButDefaults (m m' : FieldMap) : Prop :=
  List.Forall₂ (fun e e' => e.1 = e'.1 ∧ e.2.withoutDefault = e'.2.withoutDefault) m m'

/-! ## Lemmas on the field map -/

theorem FieldMap.get_set_same (m : FieldMap) (k : String) (f : Field) :
    (m.set k f).get k = f := by
  induction m with
  | nil => simp [FieldMap.set, FieldMap.get]
  | cons e rest ih =>
    obtain ⟨k', f'⟩ := e
    by_cases h : k' = k
    · simp [FieldMap.set, FieldMap.get, h]
    · simp [FieldMap.set, FieldMap.get, h, ih]

theorem FieldMap.get_set_other (m : FieldMap) (k k' : String) (f : Field) (h : k' ≠ k) :
    (m.set k f).get k' = m.get k' := by
  induction m with
  | nil => simp [FieldMap.set, FieldMap.get, Ne.symm h]
  | cons e rest ih =>
    obtain ⟨k₀, f₀⟩ := e
    by_cases h₀ : k₀ = k
    · subst h₀
      simp [FieldMap.set, FieldMap.get, Ne.symm h]
    · by_cases h₁ : k₀ = k'
      · subst h₁
        simp [FieldMap.set, FieldMap.get, h₀]
      · simp [FieldMap.set, FieldMap.get, h₀, h₁, ih]

theorem FieldMap.mem_set_self (m : FieldMap) (k : String) (f : Field) :
    (k, f) ∈ m.set k f := by
  induction m with
  | nil => simp [FieldMap.set]
  | cons e rest ih =>
    obtain ⟨k', f'⟩ := e
    by_cases h : k' = k
    · simp [FieldMap.set, h]
    · simp [FieldMap.set, h, ih]

theorem FieldMap.mem_of_mem_set (m : FieldMap) (k : String) (f : Field) (e : String × Field)
    (he : e ∈ m.set k f) : e = (k, f) ∨ e ∈ m := by
  induction m with
  | nil => simpa [FieldMap.set] using he
  | cons e₀ rest ih =>
    obtain ⟨k', f'⟩ := e₀
    by_cases h : k' = k
    · simp [FieldMap.set, h] at he
      rcases he with he | he
      · exact Or.inl he
      · exact Or.inr (List.mem_cons_of_mem _ he)
    · simp [FieldMap.set, h] at he
      rcases he with he | he
      · exact Or.inr (by simp [he])
      · rcases ih he with h' | h'
        · exact Or.inl h'
        · exact Or.inr (List.mem_cons_of_mem _ h')

/-! ## Lemmas on `Done` -/

theorem countNonNil_foldl (l : List (String × Field)) (c : Nat) :
    l.foldl (fun count kv => if kv.2.Value ≠ Value.nil then count + 1 else count) c = 0 ↔
      c = 0 ∧ ∀ e ∈ l, e.2.Value = Value.nil := by
  induction l generalizing c with
  | nil => simp
  | cons e rest ih =>
    simp only [List.foldl_cons, List.mem_cons, forall_eq_or_imp]
    by_cases h : e.2.Value = Value.nil
    · rw [if_neg (not_not.2 h), ih]
      simp [h]
    · rw [if_pos h, ih]
      simp [h]

theorem CheckIfEmpty_iff (v : Validator) (o : RangeOrder v.Fields) :
    v.CheckIfEmpty o = true ↔ ∀ e ∈ v.Fields, e.2.Value = Value.nil := by
  unfold Validator.CheckIfEmpty
  simp only [beq_iff_eq]
  rw [countNonNil_foldl]
  constructor
  · intro h e he
    exact h.2 e ((o.perm.mem_iff).2 he)
  · intro h
    exact ⟨rfl, fun e he => h e ((o.perm.mem_iff).1 he)⟩

theorem firstRequiredError_eq_none (l : List (String × Field)) :
    firstRequiredError l = none ↔ ∀ e ∈ l, ¬(e.2.Required = true ∧ e.2.ErrMsg ≠ "") := by
  induction l with
  | nil => simp [firstRequiredError]
  | cons e rest ih =>
    obtain ⟨k, f⟩ := e
    by_cases h : f.Required = true ∧ f.ErrMsg ≠ ""
    · simp [firstRequiredError, h]
    · simp only [firstRequiredError, h, if_false, ih, List.mem_cons, forall_eq_or_imp]
      simp [h]

theorem firstRequiredError_eq_some (l : List (String × Field)) (msg : String)
    (h : firstRequiredError l = some msg) :
    ∃ e ∈ l, e.2.Required = true ∧ e.2.ErrMsg ≠ "" ∧ e.2.ErrMsg = msg := by
  induction l with
  | nil => simp [firstRequiredError] at h
  | cons e rest ih =>
    obtain ⟨k, f⟩ := e
    by_cases hf : f.Required = true ∧ f.ErrMsg ≠ ""
    · rw [firstRequiredError, if_pos hf] at h
      simp only [Option.some.injEq] at h
      exact ⟨(k, f), by simp, hf.1, hf.2, h⟩
    · rw [firstRequiredError, if_neg hf] at h
      obtain ⟨e, he, hr⟩ := ih h
      exact ⟨e, List.mem_cons_of_mem _ he, hr⟩

/-! ## Finalization: `Done` -/

/-- C7: `Done()` returns no error if and only if at least one declared field
holds a non-nil value and no declared field is both required and carrying a
non-empty `ErrMsg`, whatever the iteration orders; in particular, when some
field holds a non-nil value and every field with a non-empty `ErrMsg` is not
required, `Done()` returns no error. -/
theorem C7_Done_nil_iff (v : Validator) (o₁ o₂ : RangeOrder v.Fields) :
    (v.Done o₁ o₂ = none ↔
      (∃ e ∈ v.Fields, e.2.Value ≠ Value.nil) ∧
        ∀ e ∈ v.Fields, ¬(e.2.Required = true ∧ e.2.ErrMsg ≠ "")) ∧
    ((∃ e ∈ v.Fields, e.2.Value ≠ Value.nil) →
      (∀ e ∈ v.Fields, e.2.ErrMsg ≠ "" → e.2.Required = false) → v.Done o₁ o₂ = none) := by
  have key : v.Done o₁ o₂ = none ↔
      (∃ e ∈ v.Fields, e.2.Value ≠ Value.nil) ∧
        ∀ e ∈ v.Fields, ¬(e.2.Required = true ∧ e.2.ErrMsg ≠ "") := by
    unfold Validator.Done
    by_cases hE : v.CheckIfEmpty o₁ = true
    · have hall := (CheckIfEmpty_iff v o₁).1 hE
      rw [if_pos hE]
      constructor
      · intro h; exact absurd h (by simp)
      · rintro ⟨⟨e, he, hne⟩, _⟩
        exact absurd (hall e he) hne
    · have hex : ∃ e ∈ v.Fields, e.2.Value ≠ Value.nil := by
        by_contra hcon
        push_neg at hcon
        exact hE ((CheckIfEmpty_iff v o₁).2 hcon)
      rw [if_neg hE, firstRequiredError_eq_none]
      constructor
      · intro h
        exact ⟨hex, fun e he => h e ((o₂.perm.mem_iff).2 he)⟩
      · rintro ⟨_, h⟩ e he
        exact h e ((o₂.perm.mem_iff).1 he)
  refine ⟨key, fun hex hreq => key.2 ⟨hex, ?_⟩⟩
  rintro e he ⟨hr, hm⟩
  rw [hreq e he hm] at hr
  exact absurd hr (by simp)

/-- Witness of C7: in `toleratedState` the field `age` is in error and not
required, the field `q` holds a value, and `Done()` returns no error. -/
theorem C7_Done_nil_iff_witness :
    (∃ e ∈ toleratedState.Fields, e.2.Value ≠ Value.nil) ∧
    (∃ e ∈ toleratedState.Fields, e.2.ErrMsg ≠ "" ∧ e.2.Required = false) ∧
    toleratedState.Done (RangeOrder.stored _) (RangeOrder.stored _) = none :=
  ⟨by decide, by decide,
   (C7_Done_nil_iff toleratedState (RangeOrder.stored _) (RangeOrder.stored _)).2
     (by decide) (by decide)⟩

/-- C8: when some field holds a non-nil value and some field is required with
a non-empty `ErrMsg`, `Done()` returns, for every iteration order, an error
whose text is the `ErrMsg` of a field that is required and has a non-empty
`ErrMsg`; when only one entry is such a field, the text is its `ErrMsg`. -/
theorem C8_Done_reports_required_error (v : Validator) (o₁ o₂ : RangeOrder v.Fields)
    (hval : ∃ e ∈ v.Fields, e.2.Value ≠ Value.nil)
    (hreq : ∃ e ∈ v.Fields, e.2.Required = true ∧ e.2.ErrMsg ≠ "") :
    (∃ e ∈ v.Fields, e.2.Required = true ∧ e.2.ErrMsg ≠ "" ∧
        v.Done o₁ o₂ = some e.2.ErrMsg) ∧
    (∀ e ∈ v.Fields, e.2.Required = true → e.2.ErrMsg ≠ "" →
        (∀ e' ∈ v.Fields, e'.2.Required = true → e'.2.ErrMsg ≠ "" → e' = e) →
        v.Done o₁ o₂ = some e.2.ErrMsg) := by
  have hE : ¬ v.CheckIfEmpty o₁ = true := by
    intro h
    obtain ⟨e, he, hne⟩ := hval
    exact hne ((CheckIfEmpty_iff v o₁).1 h e he)
  have hsome : ∃ e ∈ v.Fields, e.2.Required = true ∧ e.2.ErrMsg ≠ "" ∧
      v.Done o₁ o₂ = some e.2.ErrMsg := by
    unfold Validator.Done
    rw [if_neg hE]
    cases hres : firstRequiredError o₂.entries with
    | none =>
      obtain ⟨e, he, hr⟩ := hreq
      exact absurd hr ((firstRequiredError_eq_none _).1 hres e ((o₂.perm.mem_iff).2 he))
    | some msg =>
      obtain ⟨e, he, hr, hm, hmsg⟩ := firstRequiredError_eq_some _ _ hres
      exact ⟨e, (o₂.perm.mem_iff).1 he, hr, hm, by rw [hmsg]⟩
  refine ⟨hsome, ?_⟩
  intro e _ _ _ huniq
  obtain ⟨e', he', hr', hm', hd⟩ := hsome
  rw [hd, huniq e' he' hr' hm']

/-- Witness of C8: `mixedState` has one required field in error, `id`, and
`Done()` reports its message. -/
theorem C8_Done_reports_required_error_witness :
    mixedState.Done (RangeOrder.stored _) (RangeOrder.stored _) =
      some "`id` must be specified in url-param" :=
  (C8_Done_reports_required_error mixedState (RangeOrder.stored _) (RangeOrder.stored _)
    (by decide) (by decide)).2
    ("id", mixedState.Fields.get "id") (by decide) (by decide) (by decide) (by decide)

/-- Counterexample to C9 as stated: `sameTextState` is reached by
`Form("a").Required().Error("all inputs cannot be empty")`; its only field
holds the non-nil value `""`, yet `Done()` returns an error with the text
`all inputs cannot be empty`, taken from the required field's `ErrMsg`. -/
theorem C9_counterexample :
    ((New emptyContext).Form id "a").Required.map
        (fun v => (v.Error "all inputs cannot be empty").Fields) =
      some sameTextState.Fields ∧
    ¬(sameTextState.Done (RangeOrder.stored _) (RangeOrder.stored _) =
          some "all inputs cannot be empty" ↔
        ∀ e ∈ sameTextState.Fields, e.2.Value = Value.nil) := by
  decide

/-- C9, amended: `Done()` returns the error `all inputs cannot be empty`
whenever no declared field holds a non-nil value, whatever the required
fields carry, and so for a validator without fields; provided no required
field has this very text as its `ErrMsg`, it returns that error exactly when
no declared field holds a non-nil value. -/
theorem C9_Done_all_empty (v : Validator) (o₁ o₂ : RangeOrder v.Fields) :
    ((∀ e ∈ v.Fields, e.2.Value = Value.nil) →
        v.Done o₁ o₂ = some "all inputs cannot be empty") ∧
    (v.Fields = [] → v.Done o₁ o₂ = some "all inputs cannot be empty") ∧
    ((∀ e ∈ v.Fields, e.2.Required = true → e.2.ErrMsg ≠ "all inputs cannot be empty") →
        (v.Done o₁ o₂ = some "all inputs cannot be empty" ↔
          ∀ e ∈ v.Fields, e.2.Value = Value.nil)) := by
  have h1 : (∀ e ∈ v.Fields, e.2.Value = Value.nil) →
      v.Done o₁ o₂ = some "all inputs cannot be empty" := by
    intro h
    unfold Validator.Done
    rw [if_pos ((CheckIfEmpty_iff v o₁).2 h)]
  refine ⟨h1, fun h => h1 (by simp [h]), fun hno => ⟨fun hd => ?_, h1⟩⟩
  by_contra hne
  have hE : ¬ v.CheckIfEmpty o₁ = true := fun h => hne ((CheckIfEmpty_iff v o₁).1 h)
  unfold Validator.Done at hd
  rw [if_neg hE] at hd
  obtain ⟨e, he, hr, _, hmsg⟩ := firstRequiredError_eq_some _ _ hd
  exact hno e ((o₂.perm.mem_iff).1 he) hr hmsg

/-- Witness of C9: in `mixedState` no required field carries the text of the
all-empty error and a field holds a value, so `Done()` does not return it. -/
theorem C9_Done_all_empty_witness :
    ¬ mixedState.Done (RangeOrder.stored _) (RangeOrder.stored _) =
        some "all inputs cannot be empty" := fun h =>
  absurd (((C9_Done_all_empty mixedState (RangeOrder.stored _) (RangeOrder.stored _)).2.2
    (by decide)).1 h) (by decide)

/-! ## Modifiers and coercions -/

theorem append_ne_empty_of_left (a b : String) (h : a ≠ "") : a ++ b ≠ "" := by
  intro hab
  apply h
  have hd : (a ++ b).data = ("" : String).data := by rw [hab]
  rw [String.data_append] at hd
  apply String.ext
  have hnil : ("" : String).data = [] := rfl
  rw [hnil, List.append_eq_nil] at hd
  rw [hd.1, hnil]

theorem requiredMsg_ne_empty (n s : String) :
    "`" ++ n ++ "` must be specified in " ++ s ≠ "" := by
  rw [String.append_assoc, String.append_assoc]
  exact append_ne_empty_of_left _ _ (by decide)

/-- What `Required()` does when the current field holds the string `s`. -/
theorem Required_of_str (v : Validator) (s : String)
    (hv : (v.Fields.get v.CurrentField).Value = Value.str s) :
    v.Required = some
      { Context := v.Context, CurrentField := v.CurrentField,
        Fields := v.Fields.set v.CurrentField
          (if s = "" ∧ (v.Fields.get v.CurrentField).File = none then
            { v.Fields.get v.CurrentField with
              Required := true
              ErrMsg := "`" ++ (v.Fields.get v.CurrentField).Name ++
                "` must be specified in " ++ (v.Fields.get v.CurrentField).FieldType }
          else { v.Fields.get v.CurrentField with Required := true }) } := by
  unfold Validator.Required
  dsimp only
  rw [hv]
  by_cases h : s = "" ∧ (v.Fields.get v.CurrentField).File = none
  · simp [h]
  · simp only [decide_eq_true_eq, Option.isNone_iff_eq_none, h, if_false]

/-- Counterexample to C3 as stated: for the field `age` registered as
form-urlencoded with an empty value, `Required()` records a message in which
the name stands between backquotes, not the bare name. -/
theorem C3_counterexample :
    (((New emptyContext).Form id "age").Required.map
        (fun v => (v.Fields.get "age").ErrMsg) =
      some "`age` must be specified in form-urlencoded") ∧
    ¬(((New emptyContext).Form id "age").Required.map
        (fun v => (v.Fields.get "age").ErrMsg) =
      some ("age" ++ " must be specified in " ++ "form-urlencoded")) := by
  decide

/-- C3, amended: when the current field has name `n`, source kind `s`, an
empty-string raw value and no file reference, `Required()` sets the field's
`ErrMsg` to a backquote, `n`, a backquote, then ` must be specified in `
and `s`. -/
theorem C3_Required_message (v : Validator) (n s : String)
    (hn : (v.Fields.get v.CurrentField).Name = n)
    (hs : (v.Fields.get v.CurrentField).FieldType = s)
    (hv : (v.Fields.get v.CurrentField).Value = Value.str "")
    (hf : (v.Fields.get v.CurrentField).File = none) :
    ∃ v', v.Required = some v' ∧ v'.CurrentField = v.CurrentField ∧
      (v'.Fields.get v'.CurrentField).ErrMsg = "`" ++ n ++ "` must be specified in " ++ s := by
  refine ⟨_, Required_of_str v "" hv, rfl, ?_⟩
  simp [FieldMap.get_set_same, hf, hn, hs]

/-- Witness of C3: the field `age` registered as form-urlencoded from a
request without values. -/
theorem C3_Required_message_witness :
    ∃ v', ((New emptyContext).Form id "age").Required = some v' ∧
      v'.CurrentField = "age" ∧
      (v'.Fields.get v'.CurrentField).ErrMsg = "`age` must be specified in form-urlencoded" :=
  C3_Required_message ((New emptyContext).Form id "age") "age" "form-urlencoded"
    (by decide) (by decide) (by decide) (by decide)

theorem coercionMsg_int (f : Field) (h : f.DataType = IntDataType) :
    coercionMsg f =
      if f.ErrMsg = "" then f.Name ++ " must be int" else " and the value must be int" := by
  unfold coercionMsg
  rw [h]
  by_cases h : f.ErrMsg = ""
  · simp only [h, if_true]
    rw [String.append_assoc]
    rfl
  · simp only [h, if_false]
    rfl

/-- What `Int()` does when the current field holds the string `s`. -/
theorem Int_of_str (v : Validator) (s : String)
    (hv : (v.Fields.get v.CurrentField).Value = Value.str s) :
    v.Int = some ((ParseInt s 32).1,
      { Context := v.Context, CurrentField := v.CurrentField,
        Fields := v.Fields.set v.CurrentField
          { v.Fields.get v.CurrentField with
            DataType := IntDataType
            Value := Value.int (ParseInt s 32).1
            ErrMsg :=
              if (ParseInt s 32).2 ≠ none then
                (v.Fields.get v.CurrentField).ErrMsg ++
                  (if (v.Fields.get v.CurrentField).ErrMsg = "" then
                    (v.Fields.get v.CurrentField).Name ++ " must be int"
                  else " and the value must be int")
              else (v.Fields.get v.CurrentField).ErrMsg } }) := by
  unfold Validator.Int
  dsimp only
  rw [hv]
  dsimp only
  rw [coercionMsg_int _ rfl]
  by_cases h : (ParseInt s 32).2 = none
  · simp [h]
  · simp [h]

/-- C4: when the current field has name `n`, error message `X` and a string
raw value on which `strconv.ParseInt` fails, `Int()` stores
`X ++ " and the value must be int"` when `X` is non-empty and
`n ++ " must be int"` when `X` is empty; `X` starts the new message. -/
theorem C4_Int_failure_appends (v : Validator) (n X s : String)
    (hn : (v.Fields.get v.CurrentField).Name = n)
    (hX : (v.Fields.get v.CurrentField).ErrMsg = X)
    (hv : (v.Fields.get v.CurrentField).Value = Value.str s)
    (hbad : (ParseInt s 32).2 ≠ none) :
    ∃ r v', v.Int = some (r, v') ∧ v'.CurrentField = v.CurrentField ∧
      (X ≠ "" → (v'.Fields.get v'.CurrentField).ErrMsg = X ++ " and the value must be int") ∧
      (X = "" → (v'.Fields.get v'.CurrentField).ErrMsg = n ++ " must be int") ∧
      ∃ t, t ≠ "" ∧ (v'.Fields.get v'.CurrentField).ErrMsg = X ++ t := by
  refine ⟨_, _, Int_of_str v s hv, rfl, ?_, ?_, ?_⟩
  · intro hne
    simp [FieldMap.get_set_same, hbad, hX, hn, hne]
  · intro he
    subst he
    simp only [FieldMap.get_set_same, hbad, hX, hn, ne_eq, not_false_eq_true, if_true]
    apply String.ext
    simp
  · by_cases he : X = ""
    · refine ⟨n ++ " must be int", ?_, ?_⟩
      · intro h
        have := congrArg String.length h
        simp only [String.length_append] at this
        have h0 : " must be int".length = 12 := by decide
        have h1 : "".length = 0 := by decide
        omega
      · simp [FieldMap.get_set_same, hbad, hX, hn, he]
    · refine ⟨" and the value must be int", by decide, ?_⟩
      simp [FieldMap.get_set_same, hbad, hX, hn, he]

/-- Witness of C4: the field `age` registered with an empty value and made
required carries a presence message, and `Int()` fails on the empty text. -/
theorem C4_Int_failure_appends_witness :
    ∃ v₁, ((New emptyContext).Form id "age").Required = some v₁ ∧
    ∃ r v', v₁.Int = some (r, v') ∧ v'.CurrentField = v₁.CurrentField ∧
      ("`age` must be specified in form-urlencoded" ≠ "" →
        (v'.Fields.get v'.CurrentField).ErrMsg =
          "`age` must be specified in form-urlencoded" ++ " and the value must be int") ∧
      ("`age` must be specified in form-urlencoded" = "" →
        (v'.Fields.get v'.CurrentField).ErrMsg = "age" ++ " must be int") ∧
      ∃ t, t ≠ "" ∧ (v'.Fields.get v'.CurrentField).ErrMsg =
        "`age` must be specified in form-urlencoded" ++ t :=
  ⟨_, rfl, C4_Int_failure_appends _ "age" "`age` must be specified in form-urlencoded" ""
    (by decide) (by decide) (by decide) (by decide)⟩

/-- With a nil file pointer `File()` returns nil and leaves the validator as
it was: the method returns before the map is written. -/
theorem File_of_nil (v : Validator) (hf : (v.Fields.get v.CurrentField).File = none) :
    v.File = (none, v) := by
  unfold Validator.File
  dsimp only
  rw [hf]

/-- C6, the code at the failing input: for the multipart field `doc` of a
request without files, `File()` returns nil and the stored `ErrMsg` is still
`file not found`, without the suffix ` and the value must be file`. -/
theorem C6_File_failure_not_recorded :
    (((New emptyContext).Multipart id "doc").Fields.get "doc").File = none ∧
    (((New emptyContext).Multipart id "doc").Fields.get "doc").ErrMsg = "file not found" ∧
    ((New emptyContext).Multipart id "doc").File.1 = none ∧
    (((New emptyContext).Multipart id "doc").File.2.Fields.get "doc").ErrMsg =
      "file not found" ∧
    (((New emptyContext).Multipart id "doc").File.2.Fields.get "doc").ErrMsg ≠
      "file not found" ++ " and the value must be file" := by
  decide

/-- The validator after registering `n` as form-urlencoded on a new one. -/
theorem Form_New (tbl : Char → Char) (ctx : Context) (n : String) :
    (New ctx).Form tbl n =
      { Context := ctx, CurrentField := n,
        Fields := [(n, { Name := n, FieldType := TypeFormURLEncoded,
                         Value := Value.str (ctx.DefaultPostForm n ""), File := none,
                         FileName := "", FileExtension := "", DataType := DefaultDataType,
                         DefaultValue := "", ErrMsg := "", Required := false })] } := by
  have h1 : TypeFormURLEncoded ≠ TypeQueryString := by decide
  have h2 : TypeFormURLEncoded ≠ TypeURLParam := by decide
  have h3 : TypeFormURLEncoded ≠ TypeFormData := by decide
  simp [Validator.Form, Validator.AddField, extract, newField, New, FieldMap.set, h1, h2, h3]

/-- C1: for a field `n` registered as form-urlencoded on a new validator
with an empty raw value, `Required()` then `Int()` returns `0`, the field's
`ErrMsg` is the message recorded by `Required()` followed directly by
` and the value must be int`, and `Done()` returns an error with that text,
whatever the iteration orders. -/
theorem C1_failure_path (tbl : Char → Char) (ctx : Context) (n : String)
    (h : ctx.DefaultPostForm n "" = "") :
    ∃ v₁ v₂, ((New ctx).Form tbl n).Required = some v₁ ∧ v₁.Int = some (0, v₂) ∧
      (v₁.Fields.get n).ErrMsg ≠ "" ∧
      (v₂.Fields.get n).ErrMsg = (v₁.Fields.get n).ErrMsg ++ " and the value must be int" ∧
      ∀ o₁ o₂ : RangeOrder v₂.Fields, v₂.Done o₁ o₂ = some (v₂.Fields.get n).ErrMsg := by
  have hP : ParseInt "" 32 = (0, some NumError.ErrSyntax) := by decide
  have hmsg := requiredMsg_ne_empty n TypeFormURLEncoded
  rw [Form_New, h]
  refine ⟨{ Context := ctx, CurrentField := n,
            Fields := [(n, { Name := n, FieldType := TypeFormURLEncoded, Value := Value.str "",
                             File := none, FileName := "", FileExtension := "",
                             DataType := DefaultDataType, DefaultValue := "",
                             ErrMsg := "`" ++ n ++ "` must be specified in " ++
                               TypeFormURLEncoded,
                             Required := true })] },
          { Context := ctx, CurrentField := n,
            Fields := [(n, { Name := n, FieldType := TypeFormURLEncoded, Value := Value.int 0,
                             File := none, FileName := "", FileExtension := "",
                             DataType := IntDataType, DefaultValue := "",
                             ErrMsg := "`" ++ n ++ "` must be specified in " ++
                               TypeFormURLEncoded ++ " and the value must be int",
                             Required := true })] }, ?_, ?_, ?_, ?_, ?_⟩
  · rw [Required_of_str _ "" (by simp [FieldMap.get])]
    simp [FieldMap.get, FieldMap.set]
  · rw [Int_of_str _ "" (by simp [FieldMap.get])]
    simp [FieldMap.get, FieldMap.set, hP, hmsg]
  · simpa [FieldMap.get] using hmsg
  · simp [FieldMap.get]
  · intro o₁ o₂
    have hne : ("`" ++ n ++ "` must be specified in " ++ TypeFormURLEncoded ++
        " and the value must be int") ≠ "" := append_ne_empty_of_left _ _ hmsg
    have hE : ¬ Validator.CheckIfEmpty _ o₁ = true := by
      rw [CheckIfEmpty_iff]
      simp
    have h₂ := List.perm_singleton.1 o₂.perm
    unfold Validator.Done
    rw [if_neg hE, h₂]
    simp [firstRequiredError, FieldMap.get, hne]

/-- Witness of C1: the field `age` of a request without values. -/
theorem C1_failure_path_witness :
    ∃ v₁ v₂, ((New emptyContext).Form id "age").Required = some v₁ ∧
      v₁.Int = some (0, v₂) ∧ (v₁.Fields.get "age").ErrMsg ≠ "" ∧
      (v₂.Fields.get "age").ErrMsg =
        (v₁.Fields.get "age").ErrMsg ++ " and the value must be int" ∧
      ∀ o₁ o₂ : RangeOrder v₂.Fields, v₂.Done o₁ o₂ = some (v₂.Fields.get "age").ErrMsg :=
  C1_failure_path id emptyContext "age" rfl

/-! ## `strconv.ParseInt` -/

theorem digitOfByte_digit (c : Char) (hc : isDecDigit c = true) :
    digitOfByte c.toNat = some (c.toNat - 48) ∧ c.toNat - 48 < 10 := by
  simp only [isDecDigit, decide_eq_true_eq] at hc
  constructor
  · unfold digitOfByte
    rw [if_pos hc]
  · omega

theorem digitOfByte_not_digit (c : Char) (hc : ¬ isDecDigit c = true) :
    digitOfByte c.toNat = none ∨ ∃ d, digitOfByte c.toNat = some d ∧ 10 ≤ d := by
  simp only [isDecDigit, decide_eq_true_eq] at hc
  unfold digitOfByte
  rw [if_neg hc]
  by_cases h : 97 ≤ strconvLower c.toNat ∧ strconvLower c.toNat ≤ 122
  · rw [if_pos h]
    exact Or.inr ⟨_, rfl, by omega⟩
  · rw [if_neg h]
    exact Or.inl rfl

theorem parseUintLoop_cons_not_digit (M : Nat) (c : Char) (cs : List Char) (n : Nat)
    (hc : ¬ isDecDigit c = true) :
    parseUintLoop M (c :: cs) n = (0, some NumError.ErrSyntax) := by
  rcases digitOfByte_not_digit c hc with h | ⟨d, h, hd⟩
  · simp [parseUintLoop, h]
  · simp [parseUintLoop, h, hd]

theorem parseUintLoop_cons_digit (M : Nat) (c : Char) (cs : List Char) (n : Nat)
    (hc : isDecDigit c = true) (hn : n ≤ M) (hM : M < 2 ^ 32) :
    parseUintLoop M (c :: cs) n =
      if M < n * 10 + (c.toNat - 48) then (M, some NumError.ErrRange)
      else parseUintLoop M cs (n * 10 + (c.toNat - 48)) := by
  obtain ⟨h, hd⟩ := digitOfByte_digit c hc
  have hM' : M < 4294967296 := by norm_num at hM; exact hM
  have h1 : ¬ (n ≥ maxUint64 / 10 + 1) := by
    have : maxUint64 / 10 + 1 = 1844674407370955162 := by decide
    omega
  have h2 : (n * 10) % 2 ^ 64 = n * 10 := by
    apply Nat.mod_eq_of_lt
    norm_num
    omega
  have h3 : (n * 10 + (c.toNat - 48)) % 2 ^ 64 = n * 10 + (c.toNat - 48) := by
    apply Nat.mod_eq_of_lt
    norm_num
    omega
  have h4 : ¬ (n * 10 + (c.toNat - 48) < n * 10) := by omega
  have h5 : ¬ (10 ≤ c.toNat - 48) := by omega
  simp only [parseUintLoop, h, ge_iff_le, h5, if_false, h2, h3, h4, false_or, gt_iff_lt]
  simp only [ge_iff_le] at h1
  rw [if_neg h1]

theorem le_decValueFrom (n : Nat) (ds : List Char) : n ≤ decValueFrom n ds := by
  induction ds generalizing n with
  | nil => simp [decValueFrom]
  | cons c cs ih =>
    have := ih (n * 10 + (c.toNat - 48))
    simp only [decValueFrom, List.foldl_cons] at this ⊢
    omega

/-- The outcome of the loop of `ParseUint`, read off the text. -/
theorem parseUintLoop_spec (M : Nat) (hM : M < 2 ^ 32) (ds : List Char) (n : Nat)
    (hn : n ≤ M) :
    parseUintLoop M ds n =
      if M < decValueFrom n (ds.takeWhile isDecDigit) then (M, some NumError.ErrRange)
      else if ds.all isDecDigit = true then (decValueFrom n ds, none)
      else (0, some NumError.ErrSyntax) := by
  induction ds generalizing n with
  | nil =>
    have : ¬ M < n := by omega
    simp [parseUintLoop, decValueFrom, this]
  | cons c cs ih =>
    by_cases hc : isDecDigit c = true
    · rw [parseUintLoop_cons_digit M c cs n hc hn hM]
      have ht : decValueFrom n ((c :: cs).takeWhile isDecDigit) =
          decValueFrom (n * 10 + (c.toNat - 48)) (cs.takeWhile isDecDigit) := by
        simp [List.takeWhile, hc, decValueFrom]
      have hd : decValueFrom n (c :: cs) = decValueFrom (n * 10 + (c.toNat - 48)) cs := by
        simp [decValueFrom]
      have ha : (c :: cs).all isDecDigit = cs.all isDecDigit := by simp [hc]
      rw [ht, hd, ha]
      by_cases hlt : M < n * 10 + (c.toNat - 48)
      · have := le_decValueFrom (n * 10 + (c.toNat - 48)) (cs.takeWhile isDecDigit)
        rw [if_pos hlt, if_pos (by omega)]
      · rw [if_neg hlt, ih _ (by omega)]
    · rw [parseUintLoop_cons_not_digit M c cs n hc]
      have ht : (c :: cs).takeWhile isDecDigit = [] := by simp [List.takeWhile, hc]
      have ha : ¬ ((c :: cs).all isDecDigit = true) := by simp [hc]
      have : ¬ M < n := by omega
      rw [ht, if_neg ha]
      simp [decValueFrom, this]

theorem ParseUint_spec (ds : List Char) :
    ParseUint ds 32 =
      if 4294967295 < decValue (ds.takeWhile isDecDigit) then (4294967295, some NumError.ErrRange)
      else if (!ds.isEmpty && ds.all isDecDigit) = true then (decValue ds, none)
      else (0, some NumError.ErrSyntax) := by
  unfold ParseUint
  by_cases h : ds = []
  · subst h
    simp [decValue, decValueFrom]
  · rw [if_neg h, parseUintLoop_spec _ (by norm_num) ds 0 (Nat.zero_le _)]
    have he : ds.isEmpty = false := by
      cases ds with
      | nil => exact absurd rfl h
      | cons _ _ => rfl
    have hM : 2 ^ 32 - 1 = 4294967295 := by norm_num
    rw [he, hM]
    simp only [decValue, Bool.not_false, Bool.true_and]

/-- The part of `ParseInt` after the sign is picked off, for a body `B` and a
sign flag `N`. -/
theorem ParseInt_core (B : List Char) (N : Bool) :
    (if (ParseUint B 32).2 ≠ none ∧ (ParseUint B 32).2 ≠ some NumError.ErrRange then
        ((0 : ℤ), (ParseUint B 32).2)
      else if !N ∧ (ParseUint B 32).1 ≥ 2 ^ (32 - 1) then
        (((2 ^ (32 - 1) : ℕ) : ℤ) - 1, some NumError.ErrRange)
      else if N ∧ (ParseUint B 32).1 > 2 ^ (32 - 1) then
        (-((2 ^ (32 - 1) : ℕ) : ℤ), some NumError.ErrRange)
      else (if N then -((ParseUint B 32).1 : ℤ) else ((ParseUint B 32).1 : ℤ), none)) =
      if (!B.isEmpty && B.all isDecDigit) = true then
        if (-2147483648 ≤ if N = true then -(decValue B : ℤ) else (decValue B : ℤ)) ∧
            (if N = true then -(decValue B : ℤ) else (decValue B : ℤ)) ≤ 2147483647 then
          (if N = true then -(decValue B : ℤ) else (decValue B : ℤ), none)
        else (if N = true then -2147483648 else 2147483647, some NumError.ErrRange)
      else if 4294967295 < decValue (B.takeWhile isDecDigit) then
        (if N = true then -2147483648 else 2147483647, some NumError.ErrRange)
      else (0, some NumError.ErrSyntax) := by
  have hc : (2 : ℕ) ^ (32 - 1) = 2147483648 := by norm_num
  rw [ParseUint_spec, hc]
  by_cases hall : (!B.isEmpty && B.all isDecDigit) = true
  · have ht : B.takeWhile isDecDigit = B := by
      rw [List.takeWhile_eq_self_iff]
      simp only [Bool.and_eq_true, List.all_eq_true] at hall
      exact hall.2
    rw [ht, if_pos hall, if_pos hall]
    by_cases hov : 4294967295 < decValue B
    · rw [if_pos hov]
      cases N
      · simp
        split_ifs <;> first | rfl | (exfalso; omega)
      · simp
        split_ifs <;> first | rfl | (exfalso; omega)
    · rw [if_neg hov]
      cases N
      · simp
        split_ifs <;> first | rfl | (exfalso; omega)
      · simp
        split_ifs <;> first | rfl | (exfalso; omega)
  · rw [if_neg hall, if_neg hall]
    by_cases hov : 4294967295 < decValue (B.takeWhile isDecDigit)
    · rw [if_pos hov, if_pos hov]
      cases N <;> simp
    · rw [if_neg hov, if_neg hov]
      simp

/-- The outcome of `strconv.ParseInt(s, 10, 32)`, read off the text. -/
theorem ParseInt_spec (s : String) :
    ParseInt s 32 =
      if isDecimalInteger s = true then
        if -2147483648 ≤ decimalInteger s ∧ decimalInteger s ≤ 2147483647 then
          (decimalInteger s, none)
        else (if hasMinus s = true then -2147483648 else 2147483647, some NumError.ErrRange)
      else if 4294967295 < decValue (leadingDigits s) then
        (if hasMinus s = true then -2147483648 else 2147483647, some NumError.ErrRange)
      else (0, some NumError.ErrSyntax) := by
  unfold ParseInt
  split
  · rename_i hd
    have hB : unsignedPart s = [] := by simp [unsignedPart, hd]
    simp [isDecimalInteger, leadingDigits, hB, decValue, decValueFrom]
  · rename_i c rest hd
    have hB : unsignedPart s = (if c = '+' ∨ c = '-' then rest else c :: rest) := by
      simp [unsignedPart, hd]
    have hN : hasMinus s = decide (c = '-') := by
      simp [hasMinus, hd]
    rw [← hB, ← hN]
    exact ParseInt_core (unsignedPart s) (hasMinus s)

/-! ## The base-10 representation of an integer -/

theorem digitChar_isDecDigit (d : Nat) (hd : d < 10) :
    isDecDigit (Nat.digitChar d) = true ∧ (Nat.digitChar d).toNat - 48 = d := by
  interval_cases d <;> decide

theorem decValueFrom_eq (n : Nat) (ds : List Char) :
    decValueFrom n ds = n * 10 ^ ds.length + decValue ds := by
  induction ds generalizing n with
  | nil => simp [decValueFrom, decValue]
  | cons c cs ih =>
    have h1 : decValueFrom n (c :: cs) = decValueFrom (n * 10 + (c.toNat - 48)) cs := by
      simp [decValueFrom]
    have h2 : decValue (c :: cs) = decValueFrom (0 * 10 + (c.toNat - 48)) cs := by
      simp [decValue, decValueFrom]
    rw [h1, h2, ih, ih (0 * 10 + (c.toNat - 48)), List.length_cons, pow_succ]
    ring

theorem toDigitsCore_spec (fuel n : Nat) (ds : List Char) (h : n < fuel)
    (hds : ∀ c ∈ ds, isDecDigit c = true) :
    (∀ c ∈ Nat.toDigitsCore 10 fuel n ds, isDecDigit c = true) ∧
    Nat.toDigitsCore 10 fuel n ds ≠ [] ∧
    decValue (Nat.toDigitsCore 10 fuel n ds) = n * 10 ^ ds.length + decValue ds := by
  induction fuel generalizing n ds with
  | zero => omega
  | succ fuel ih =>
    obtain ⟨hdig, hval⟩ := digitChar_isDecDigit (n % 10) (Nat.mod_lt _ (by norm_num))
    have hcons : decValue (Nat.digitChar (n % 10) :: ds) =
        (n % 10) * 10 ^ ds.length + decValue ds := by
      have : decValue (Nat.digitChar (n % 10) :: ds) =
          decValueFrom (0 * 10 + ((Nat.digitChar (n % 10)).toNat - 48)) ds := by
        simp [decValue, decValueFrom]
      rw [this, decValueFrom_eq, hval]
      ring
    have hall : ∀ c ∈ Nat.digitChar (n % 10) :: ds, isDecDigit c = true := by
      intro c hc
      rcases List.mem_cons.1 hc with rfl | hc
      · exact hdig
      · exact hds c hc
    unfold Nat.toDigitsCore
    by_cases h0 : n / 10 = 0
    · simp only [h0, if_true]
      refine ⟨hall, by simp, ?_⟩
      rw [hcons]
      have : n % 10 = n := Nat.mod_eq_of_lt (by omega)
      rw [this]
    · simp only [h0, if_false]
      obtain ⟨i1, i2, i3⟩ := ih (n / 10) (Nat.digitChar (n % 10) :: ds) (by omega) hall
      refine ⟨i1, i2, ?_⟩
      rw [i3, hcons, List.length_cons, pow_succ]
      have hn : n = n / 10 * 10 + n % 10 := (Nat.div_add_mod' n 10).symm
      generalize 10 ^ ds.length = P at *
      generalize decValue ds = V at *
      conv_rhs => rw [hn]
      ring

theorem toDigits_spec (m : Nat) :
    (∀ c ∈ Nat.toDigits 10 m, isDecDigit c = true) ∧ Nat.toDigits 10 m ≠ [] ∧
      decValue (Nat.toDigits 10 m) = m := by
  have := toDigitsCore_spec (m + 1) m [] (by omega) (by simp)
  simpa [Nat.toDigits, decValue, decValueFrom] using this

theorem isDecDigit_not_sign (c : Char) (hc : isDecDigit c = true) : ¬(c = '+' ∨ c = '-') := by
  simp only [isDecDigit, decide_eq_true_eq] at hc
  rintro (h | h) <;> subst h <;> revert hc <;> decide

theorem unsignedPart_of_digits (s : String) (hne : s.data ≠ [])
    (hall : ∀ c ∈ s.data, isDecDigit c = true) :
    unsignedPart s = s.data ∧ hasMinus s = false := by
  unfold unsignedPart hasMinus
  cases hd : s.data with
  | nil => exact absurd hd hne
  | cons c rest =>
    have hc : isDecDigit c = true := hall c (by rw [hd]; exact List.mem_cons_self _ _)
    have hs := isDecDigit_not_sign c hc
    refine ⟨by simp only [hs, if_false], ?_⟩
    have : c ≠ '-' := fun h => hs (Or.inr h)
    simp [this]

theorem unsignedPart_of_minus (s : String) (ds : List Char) (h : s.data = '-' :: ds) :
    unsignedPart s = ds ∧ hasMinus s = true := by
  unfold unsignedPart hasMinus
  rw [h]
  simp

/-- The base-10 representation of an integer is written as a base-10 integer
and denotes that integer. -/
theorem toString_int_spec (k : ℤ) :
    isDecimalInteger (toString k) = true ∧ decimalInteger (toString k) = k := by
  cases k with
  | ofNat m =>
    obtain ⟨h1, h2, h3⟩ := toDigits_spec m
    have hd : (toString (Int.ofNat m)).data = Nat.toDigits 10 m := rfl
    obtain ⟨hu, hm⟩ := unsignedPart_of_digits (toString (Int.ofNat m)) (by rw [hd]; exact h2)
      (by rw [hd]; exact h1)
    unfold isDecimalInteger decimalInteger
    rw [hu, hm, hd, h3]
    refine ⟨?_, by simp⟩
    simp only [Bool.and_eq_true, Bool.not_eq_true', List.all_eq_true]
    refine ⟨?_, h1⟩
    cases hl : Nat.toDigits 10 m with
    | nil => exact absurd hl h2
    | cons _ _ => rfl
  | negSucc m =>
    obtain ⟨h1, h2, h3⟩ := toDigits_spec (m + 1)
    have hd : (toString (Int.negSucc m)).data = '-' :: Nat.toDigits 10 (m + 1) := rfl
    obtain ⟨hu, hm⟩ := unsignedPart_of_minus _ _ hd
    unfold isDecimalInteger decimalInteger
    rw [hu, hm, h3]
    refine ⟨?_, by simp [Int.negSucc_eq]⟩
    simp only [Bool.and_eq_true, Bool.not_eq_true', List.all_eq_true]
    refine ⟨?_, h1⟩
    cases hl : Nat.toDigits 10 (m + 1) with
    | nil => exact absurd hl h2
    | cons _ _ => rfl

/-! ## End-to-end success path -/

/-- The field built by `AddField` has the given name and source kind, is not
required, and either has no error or holds the empty string. -/
theorem newField_facts (tbl : Char → Char) (ctx : Context) (n t : String) :
    (newField (extract tbl ctx n t) n t).Name = n ∧
    (newField (extract tbl ctx n t) n t).FieldType = t ∧
    (newField (extract tbl ctx n t) n t).Required = false ∧
    ((newField (extract tbl ctx n t) n t).ErrMsg = "" ∨
      (newField (extract tbl ctx n t) n t).Value = Value.str "") := by
  unfold extract
  dsimp only
  split_ifs
  · simp [newField]
  · simp [newField]
  · simp [newField]
  · simp [newField]
  · cases ctx.FormFile n <;> simp [newField]
  · simp [newField]

theorem toString_int_ne_empty (k : ℤ) : toString k ≠ "" := by
  intro h
  have := (toString_int_spec k).1
  rw [h] at this
  exact absurd this (by decide)

theorem ParseInt_toString (k : ℤ) (hlo : -2147483648 ≤ k) (hhi : k ≤ 2147483647) :
    ParseInt (toString k) 32 = (k, none) := by
  obtain ⟨h1, h2⟩ := toString_int_spec k
  rw [ParseInt_spec, if_pos h1, h2, if_pos ⟨hlo, hhi⟩]

/-- C2: for every integer `k` of the signed 32-bit range and every field name
`n`, when registering `n` (from any source kind `t`) on a new validator
yields the base-10 representation of `k` as raw value, `Required()` then
`Int()` returns `k`, the field's `ErrMsg` is empty, and `Done()` returns no
error, whatever the iteration orders. -/
theorem C2_success_path (tbl : Char → Char) (ctx : Context) (n t : String) (k : ℤ)
    (hlo : -2147483648 ≤ k) (hhi : k ≤ 2147483647)
    (hraw : (((New ctx).AddField tbl n t).Fields.get n).Value = Value.str (toString k)) :
    ∃ v₁ v₂, ((New ctx).AddField tbl n t).Required = some v₁ ∧ v₁.Int = some (k, v₂) ∧
      (v₂.Fields.get n).ErrMsg = "" ∧
      ∀ o₁ o₂ : RangeOrder v₂.Fields, v₂.Done o₁ o₂ = none := by
  have hA : (New ctx).AddField tbl n t =
      { Context := ctx, CurrentField := n,
        Fields := [(n, newField (extract tbl ctx n t) n t)] } := rfl
  obtain ⟨_, _, _, hErr⟩ := newField_facts tbl ctx n t
  rw [hA] at hraw ⊢
  generalize newField (extract tbl ctx n t) n t = F at hraw hErr ⊢
  have hget : FieldMap.get [(n, F)] n = F := by simp [FieldMap.get]
  rw [hget] at hraw
  have hne := toString_int_ne_empty k
  have hE : F.ErrMsg = "" := by
    rcases hErr with h | h
    · exact h
    · rw [hraw] at h
      exact absurd (Value.str.inj h) hne
  have hP := ParseInt_toString k hlo hhi
  have hR := Required_of_str
    { Context := ctx, CurrentField := n, Fields := [(n, F)] } (toString k) (by rw [hget]; exact hraw)
  simp only [hget, hne, false_and, if_false, FieldMap.set, if_true] at hR
  have hI := Int_of_str
    { Context := ctx, CurrentField := n, Fields := [(n, { F with Required := true })] }
    (toString k) (by simp [FieldMap.get, hraw])
  simp only [hP, FieldMap.get, FieldMap.set, if_true, ne_eq, not_true_eq_false, if_false] at hI
  refine ⟨_, _, hR, hI, ?_, ?_⟩
  · simp [FieldMap.get, hE]
  · intro o₁ o₂
    have hEmp : ¬ Validator.CheckIfEmpty _ o₁ = true := by
      rw [CheckIfEmpty_iff]
      simp
    have h₂ := List.perm_singleton.1 o₂.perm
    unfold Validator.Done
    rw [if_neg hEmp, h₂]
    simp [firstRequiredError, hE]

/-- Witness of C2: the raw value `30` of the form field `age` and the raw
value `42` of the query parameter `n`. -/
theorem C2_success_path_witness :
    (∃ v₁ v₂, ((New ageContext).AddField id "age" "form-urlencoded").Required = some v₁ ∧
      v₁.Int = some (30, v₂) ∧ (v₂.Fields.get "age").ErrMsg = "" ∧
      ∀ o₁ o₂ : RangeOrder v₂.Fields, v₂.Done o₁ o₂ = none) ∧
    (∃ v₁ v₂, ((New answerContext).AddField id "n" "query-string").Required = some v₁ ∧
      v₁.Int = some (42, v₂) ∧ (v₂.Fields.get "n").ErrMsg = "" ∧
      ∀ o₁ o₂ : RangeOrder v₂.Fields, v₂.Done o₁ o₂ = none) :=
  ⟨C2_success_path id ageContext "age" "form-urlencoded" 30 (by decide) (by decide)
    (by decide),
   C2_success_path id answerContext "n" "query-string" 42 (by decide) (by decide)
    (by decide)⟩

/-! ## Failure of `Int()` -/

/-- Counterexample to C5 as stated: the raw value `99999999999` is a
well-formed integer outside the signed 32-bit range, and `Int()` returns
`2147483647` on it, not `0`. -/
theorem C5_counterexample :
    (((New bigContext).Form id "n").Fields.get "n").Value = Value.str "99999999999" ∧
    ¬ IsInt32Text "99999999999" ∧
    ((New bigContext).Form id "n").Int.map Prod.fst = some 2147483647 ∧
    ((New bigContext).Form id "n").Int.map Prod.fst ≠ some 0 := by
  decide

theorem coercion_result_ne_empty (X n : String) :
    X ++ (if X = "" then n ++ " must be int" else " and the value must be int") ≠ "" := by
  by_cases h : X = ""
  · subst h
    rw [if_pos rfl]
    intro h
    have := congrArg String.length h
    simp only [String.length_append] at this
    have h0 : " must be int".length = 12 := by decide
    have h1 : "".length = 0 := by decide
    omega
  · exact append_ne_empty_of_left _ _ h

/-- The outcome of `ParseInt` on a text that is not a base-10 integer of the
signed 32-bit range. -/
theorem ParseInt_of_not_int32 (s : String) (hbad : ¬ IsInt32Text s) :
    ParseInt s 32 =
      if isDecimalInteger s = true ∨ 4294967295 < decValue (leadingDigits s) then
        (if hasMinus s = true then -2147483648 else 2147483647, some NumError.ErrRange)
      else (0, some NumError.ErrSyntax) := by
  rw [ParseInt_spec]
  by_cases h1 : isDecimalInteger s = true
  · have h2 : ¬(-2147483648 ≤ decimalInteger s ∧ decimalInteger s ≤ 2147483647) :=
      fun h => hbad ⟨h1, h⟩
    rw [if_pos h1, if_neg h2, if_pos (Or.inl h1)]
  · by_cases h3 : 4294967295 < decValue (leadingDigits s)
    · rw [if_neg h1, if_pos h3, if_pos (Or.inr h3)]
    · rw [if_neg h1, if_neg h3, if_neg (by tauto)]

/-- C5, amended: when the current field's raw value is a string that is not
a base-10 integer fitting the signed 32-bit range, `Int()` records a failure
in the field's `ErrMsg` (the message-append rule, so the message is
non-empty). It returns `0` when the text is not written as an integer and
the digits it starts with, after the sign, do not exceed `4294967295`; when
the text is written as an integer, or starts with digits exceeding
`4294967295`, it returns the nearest bound, `2147483647`, or `-2147483648`
after a leading minus sign. -/
theorem C5_Int_failure (v : Validator) (s : String)
    (hv : (v.Fields.get v.CurrentField).Value = Value.str s) (hbad : ¬ IsInt32Text s) :
    ∃ r v', v.Int = some (r, v') ∧ v'.CurrentField = v.CurrentField ∧
      (v'.Fields.get v'.CurrentField).ErrMsg =
        (v.Fields.get v.CurrentField).ErrMsg ++
          (if (v.Fields.get v.CurrentField).ErrMsg = "" then
            (v.Fields.get v.CurrentField).Name ++ " must be int"
          else " and the value must be int") ∧
      (v'.Fields.get v'.CurrentField).ErrMsg ≠ "" ∧
      (isDecimalInteger s = true ∨ 4294967295 < decValue (leadingDigits s) →
        r = if hasMinus s = true then -2147483648 else 2147483647) ∧
      (isDecimalInteger s = false → decValue (leadingDigits s) ≤ 4294967295 → r = 0) := by
  have hP := ParseInt_of_not_int32 s hbad
  have herr : (ParseInt s 32).2 ≠ none := by
    rw [hP]
    by_cases h : isDecimalInteger s = true ∨ 4294967295 < decValue (leadingDigits s)
    · rw [if_pos h]; simp
    · rw [if_neg h]; simp
  have hmsg : (FieldMap.get (v.Fields.set v.CurrentField
        { v.Fields.get v.CurrentField with
          DataType := IntDataType
          Value := Value.int (ParseInt s 32).1
          ErrMsg :=
            if (ParseInt s 32).2 ≠ none then
              (v.Fields.get v.CurrentField).ErrMsg ++
                (if (v.Fields.get v.CurrentField).ErrMsg = "" then
                  (v.Fields.get v.CurrentField).Name ++ " must be int"
                else " and the value must be int")
            else (v.Fields.get v.CurrentField).ErrMsg }) v.CurrentField).ErrMsg =
      (v.Fields.get v.CurrentField).ErrMsg ++
        (if (v.Fields.get v.CurrentField).ErrMsg = "" then
          (v.Fields.get v.CurrentField).Name ++ " must be int"
        else " and the value must be int") := by
    rw [FieldMap.get_set_same]
    simp only [herr, ne_eq, not_false_eq_true, if_true]
  refine ⟨_, _, Int_of_str v s hv, rfl, hmsg, ?_, ?_, ?_⟩
  · rw [hmsg]
    exact coercion_result_ne_empty _ _
  · intro h
    rw [hP, if_pos h]
  · intro h1 h3
    rw [hP, if_neg (by rw [h1]; simp; omega)]

/-- Witness of C5: the raw values `abc` and the empty string, on which
`Int()` returns `0`. -/
theorem C5_Int_failure_witness :
    (∃ r v', ((New abcContext).Form id "n").Int = some (r, v') ∧
      (v'.Fields.get "n").ErrMsg = "n must be int" ∧ r = 0) ∧
    (∃ r v', ((New emptyContext).Form id "n").Int = some (r, v') ∧
      (v'.Fields.get "n").ErrMsg = "n must be int" ∧ r = 0) := by
  constructor
  · obtain ⟨r, v', h1, h2, h3, _, _, h6⟩ :=
      C5_Int_failure ((New abcContext).Form id "n") "abc" (by decide) (by decide)
    exact ⟨r, v', h1, by rw [h2] at h3; exact h3.trans (by decide), h6 (by decide) (by decide)⟩
  · obtain ⟨r, v', h1, h2, h3, _, _, h6⟩ :=
      C5_Int_failure ((New emptyContext).Form id "n") "" (by decide) (by decide)
    exact ⟨r, v', h1, by rw [h2] at h3; exact h3.trans (by decide), h6 (by decide) (by decide)⟩

/-! ## `GetFileExtension` -/

theorem splitDotAux_no_dot (cs cur : List Char) (h : '.' ∉ cs) :
    splitDotAux cs cur = [cur.reverse ++ cs] := by
  induction cs generalizing cur with
  | nil => simp [splitDotAux]
  | cons c cs ih =>
    have hc : c ≠ '.' := fun e => h (by simp [e])
    have hcs : '.' ∉ cs := fun e => h (List.mem_cons_of_mem _ e)
    simp [splitDotAux, hc, ih _ hcs]

theorem splitDotAux_dot (pre post cur : List Char) (h : '.' ∉ post) :
    ∃ init, init ≠ [] ∧ splitDotAux (pre ++ '.' :: post) cur = init ++ [post] := by
  induction pre generalizing cur with
  | nil =>
    refine ⟨[cur.reverse], by simp, ?_⟩
    simp [splitDotAux, splitDotAux_no_dot post [] h]
  | cons c pre ih =>
    by_cases hc : c = '.'
    · obtain ⟨init, _, hi⟩ := ih []
      refine ⟨cur.reverse :: init, by simp, ?_⟩
      simp [splitDotAux, hc, hi]
    · obtain ⟨init, hne, hi⟩ := ih (c :: cur)
      refine ⟨init, hne, ?_⟩
      simp [splitDotAux, hc, hi]

theorem exists_last_dot (l : List Char) (h : '.' ∈ l) :
    ∃ pre post, l = pre ++ '.' :: post ∧ '.' ∉ post := by
  obtain ⟨as, bs, he, hn⟩ := List.eq_append_cons_of_mem (List.mem_reverse.2 h)
  refine ⟨bs.reverse, as.reverse, ?_, by simpa using hn⟩
  have := congrArg List.reverse he
  simpa using this

theorem unicodeToLower_ne_dot (tbl : Char → Char) (htbl : ∀ c, 127 < c.toNat → tbl c ≠ '.')
    (c : Char) (hc : c ≠ '.') : unicodeToLower tbl c ≠ '.' := by
  unfold unicodeToLower
  by_cases h1 : c.toNat ≤ 127
  · rw [if_pos h1]
    by_cases h2 : 65 ≤ c.toNat ∧ c.toNat ≤ 90
    · rw [if_pos h2]
      obtain ⟨h3, h4⟩ := h2
      generalize c.toNat = n at h3 h4
      interval_cases n <;> decide
    · rw [if_neg h2]
      exact hc
  · rw [if_neg h1]
    exact htbl c (by omega)

/-- C10: `GetFileExtension(f)` is the empty string when `f` contains no
dot; otherwise `f` is `pre`, a dot and a dot-free `post`, and the result is
`post` in lower case; the result never contains a dot (the case table of
`unicode.ToLower` maps no rune above ASCII to a dot). -/
theorem C10_GetFileExtension (tbl : Char → Char) (f : String) :
    ('.' ∉ f.data → GetFileExtension tbl f = "") ∧
    ('.' ∈ f.data → ∃ pre post : List Char, f.data = pre ++ '.' :: post ∧ '.' ∉ post ∧
        GetFileExtension tbl f = stringsToLower tbl ⟨post⟩) ∧
    ((∀ c, 127 < c.toNat → tbl c ≠ '.') → '.' ∉ (GetFileExtension tbl f).data) := by
  have hno : '.' ∉ f.data → GetFileExtension tbl f = "" := by
    intro h
    simp [GetFileExtension, stringsSplitDot, splitDotAux_no_dot _ _ h, stringsToLower]
  have hyes : '.' ∈ f.data → ∃ pre post : List Char, f.data = pre ++ '.' :: post ∧
      '.' ∉ post ∧ GetFileExtension tbl f = stringsToLower tbl ⟨post⟩ := by
    intro h
    obtain ⟨pre, post, he, hn⟩ := exists_last_dot _ h
    obtain ⟨init, hne, hs⟩ := splitDotAux_dot pre post [] hn
    refine ⟨pre, post, he, hn, ?_⟩
    have hlen : (init ++ [post]).length ≥ 2 := by
      cases init with
      | nil => exact absurd rfl hne
      | cons _ _ => simp
    unfold GetFileExtension stringsSplitDot
    rw [he, hs]
    simp only [List.map_append, List.map_cons, List.map_nil, List.getLastD_concat]
    have hlen' : (List.map String.mk init ++ [String.mk post]).length ≥ 2 := by
      simpa using hlen
    rw [if_pos hlen']
  refine ⟨hno, hyes, ?_⟩
  intro htbl
  by_cases h : '.' ∈ f.data
  · obtain ⟨pre, post, _, hn, hg⟩ := hyes h
    rw [hg]
    simp only [stringsToLower, List.mem_map, not_exists, not_and]
    intro c hc
    exact unicodeToLower_ne_dot tbl htbl c (fun e => hn (e ▸ hc))
  · rw [hno h]
    simp

/-- Witness of C10: with a case table that fixes the runes above ASCII,
`a.b.TAR` gives `tar`, `noext` gives the empty string, and no result
contains a dot. -/
theorem C10_GetFileExtension_witness :
    GetFileExtension id "a.b.TAR" = "tar" ∧ GetFileExtension id "noext" = "" ∧
    '.' ∉ (GetFileExtension id "a.b.TAR").data := by
  refine ⟨by decide, (C10_GetFileExtension id "noext").1 (by decide),
    (C10_GetFileExtension id "a.b.TAR").2.2 ?_⟩
  intro c hc e
  have : c = '.' := e
  rw [this] at hc
  exact absurd hc (by decide)

/-! ## Field registration -/

theorem FieldMap.keys_set (m : FieldMap) (k : String) (f : Field) :
    (m.set k f).keys = if k ∈ m.keys then m.keys else m.keys ++ [k] := by
  induction m with
  | nil => simp [FieldMap.set, FieldMap.keys]
  | cons e rest ih =>
    obtain ⟨k', f'⟩ := e
    by_cases h : k' = k
    · subst h
      simp [FieldMap.set, FieldMap.keys]
    · have hne : ¬ k = k' := fun e => h e.symm
      simp only [FieldMap.keys] at ih
      simp only [FieldMap.set, h, if_false, FieldMap.keys, List.map_cons, List.mem_cons, hne,
        false_or, ih]
      split_ifs <;> simp

/-- What an extraction call does to the map and the cursor. -/
theorem AddField_registers (tbl : Char → Char) (v : Validator) (n s : String)
    (hnd : v.Fields.keys.Nodup) :
    (v.AddField tbl n s).CurrentField = n ∧
    (v.AddField tbl n s).Fields.keys.count n = 1 ∧
    (v.AddField tbl n s).Fields.keys.Nodup ∧
    ((v.AddField tbl n s).Fields.get n).Name = n ∧
    ((v.AddField tbl n s).Fields.get n).FieldType = s ∧
    ((v.AddField tbl n s).Fields.get n).Required = false ∧
    ((v.AddField tbl n s).Fields.get n).DataType = DefaultDataType ∧
    (v.AddField tbl n s).Fields.get n = ((New v.Context).AddField tbl n s).Fields.get n ∧
    (∀ k, k ∈ (v.AddField tbl n s).Fields.keys ↔ k = n ∨ k ∈ v.Fields.keys) ∧
    (v.AddField tbl n s).Fields.length ≤ v.Fields.length + 1 := by
  obtain ⟨h1, h2, h3, _⟩ := newField_facts tbl v.Context n s
  have hkeys := FieldMap.keys_set v.Fields n (newField (extract tbl v.Context n s) n s)
  have hD : (newField (extract tbl v.Context n s) n s).DataType = DefaultDataType := by
    unfold newField
    split <;> rfl
  have hnd' : (v.AddField tbl n s).Fields.keys.Nodup := by
    show (v.Fields.set n _).keys.Nodup
    rw [hkeys]
    by_cases hin : n ∈ v.Fields.keys
    · rw [if_pos hin]; exact hnd
    · rw [if_neg hin]
      exact List.Nodup.append hnd (List.nodup_singleton n) (by simpa using hin)
  have hmem : ∀ k, k ∈ (v.AddField tbl n s).Fields.keys ↔ k = n ∨ k ∈ v.Fields.keys := by
    intro k
    show k ∈ (v.Fields.set n _).keys ↔ _
    rw [hkeys]
    by_cases hin : n ∈ v.Fields.keys
    · rw [if_pos hin]
      constructor
      · exact Or.inr
      · rintro (rfl | h)
        · exact hin
        · exact h
    · rw [if_neg hin]
      simp [or_comm]
  have hget : (v.AddField tbl n s).Fields.get n = newField (extract tbl v.Context n s) n s :=
    FieldMap.get_set_same _ _ _
  refine ⟨rfl, ?_, hnd', ?_, ?_, ?_, ?_, ?_, hmem, ?_⟩
  · exact List.count_eq_one_of_mem hnd' ((hmem n).2 (Or.inl rfl))
  · rw [hget]; exact h1
  · rw [hget]; exact h2
  · rw [hget]; exact h3
  · rw [hget]; exact hD
  · rw [hget]
    exact (FieldMap.get_set_same _ _ _).symm
  · have : (v.AddField tbl n s).Fields.keys.length ≤ v.Fields.keys.length + 1 := by
      show (v.Fields.set n _).keys.length ≤ _
      rw [hkeys]
      split_ifs <;> simp
    simpa [FieldMap.keys] using this

/-- C11: for every field name `n` and each of the five extraction shortcuts
`reg` with its source kind `s`, on a map without repeated keys: after the
call the cursor is `n`, the map holds one entry for `n` (and still no
repeated key), this entry has name `n`, source kind `s`, is not required and
has the default data type; it is the entry a new validator would get,
whatever entry `n` had before; the keys afterwards are `n` and the keys
before, so the map gains at most one key. -/
theorem C11_shortcut_registers (tbl : Char → Char) (v : Validator) (n s : String)
    (reg : Validator → String → Validator)
    (hreg : (reg, s) ∈
      [(Validator.Query tbl, TypeQueryString), (Validator.Param tbl, TypeURLParam),
       (Validator.Form tbl, TypeFormURLEncoded), (Validator.FormData tbl, TypeFormData),
       (Validator.Multipart tbl, TypeMultipartFile)])
    (hnd : v.Fields.keys.Nodup) :
    (reg v n).CurrentField = n ∧
    (reg v n).Fields.keys.count n = 1 ∧
    (reg v n).Fields.keys.Nodup ∧
    ((reg v n).Fields.get n).Name = n ∧
    ((reg v n).Fields.get n).FieldType = s ∧
    ((reg v n).Fields.get n).Required = false ∧
    ((reg v n).Fields.get n).DataType = DefaultDataType ∧
    (reg v n).Fields.get n = (reg (New v.Context) n).Fields.get n ∧
    (∀ k, k ∈ (reg v n).Fields.keys ↔ k = n ∨ k ∈ v.Fields.keys) ∧
    (reg v n).Fields.length ≤ v.Fields.length + 1 := by
  simp only [List.mem_cons, Prod.mk.injEq, List.mem_singleton, List.not_mem_nil, or_false]
    at hreg
  rcases hreg with ⟨rfl, rfl⟩ | ⟨rfl, rfl⟩ | ⟨rfl, rfl⟩ | ⟨rfl, rfl⟩ | ⟨rfl, rfl⟩ <;>
    exact AddField_registers tbl v n _ hnd

/-- Witness of C11: registering `age` again, by `Form`, on a validator where
`age` is required and in error. -/
theorem C11_shortcut_registers_witness :
    (twoFieldState.Form id "age").CurrentField = "age" ∧
    (twoFieldState.Form id "age").Fields.keys.count "age" = 1 ∧
    ((twoFieldState.Form id "age").Fields.get "age").Required = false ∧
    ((twoFieldState.Form id "age").Fields.get "age").ErrMsg = "" ∧
    (twoFieldState.Form id "age").Fields.length ≤ twoFieldState.Fields.length + 1 := by
  obtain ⟨h1, h2, _, _, _, h6, _, _, _, h10⟩ :=
    C11_shortcut_registers id twoFieldState "age" TypeFormURLEncoded (Validator.Form id)
      (List.Mem.tail _ (List.Mem.tail _ (List.Mem.head _))) (by decide)
  exact ⟨h1, h2, h6, by decide, h10⟩

/-! ## The calls, one by one -/

theorem Required_of_not_str (v : Validator)
    (hv : ∀ s, (v.Fields.get v.CurrentField).Value ≠ Value.str s) : v.Required = none := by
  unfold Validator.Required
  dsimp only
  cases hV : (v.Fields.get v.CurrentField).Value with
  | str s => exact absurd hV (hv s)
  | nil => rfl
  | int i => rfl
  | float32 b => rfl

theorem Int_of_not_str (v : Validator)
    (hv : ∀ s, (v.Fields.get v.CurrentField).Value ≠ Value.str s) : v.Int = none := by
  unfold Validator.Int
  dsimp only
  cases hV : (v.Fields.get v.CurrentField).Value with
  | str s => exact absurd hV (hv s)
  | nil => rfl
  | int i => rfl
  | float32 b => rfl

theorem Float32_of_not_str (parseFloat : String → Nat × Bool) (v : Validator)
    (hv : ∀ s, (v.Fields.get v.CurrentField).Value ≠ Value.str s) :
    v.Float32 parseFloat = none := by
  unfold Validator.Float32
  dsimp only
  cases hV : (v.Fields.get v.CurrentField).Value with
  | str s => exact absurd hV (hv s)
  | nil => rfl
  | int i => rfl
  | float32 b => rfl

/-- What `Float32()` does when the current field holds the string `s`. -/
theorem Float32_of_str (parseFloat : String → Nat × Bool) (v : Validator) (s : String)
    (hv : (v.Fields.get v.CurrentField).Value = Value.str s) :
    v.Float32 parseFloat = some ((parseFloat s).1,
      { Context := v.Context, CurrentField := v.CurrentField,
        Fields := v.Fields.set v.CurrentField
          { v.Fields.get v.CurrentField with
            DataType := FloatDataType
            Value := Value.float32 (parseFloat s).1
            ErrMsg :=
              if (parseFloat s).2 = true then
                (v.Fields.get v.CurrentField).ErrMsg ++
                  coercionMsg { v.Fields.get v.CurrentField with DataType := FloatDataType }
              else (v.Fields.get v.CurrentField).ErrMsg } }) := by
  unfold Validator.Float32
  dsimp only
  rw [hv]
  dsimp only
  by_cases h : (parseFloat s).2 = true
  · simp [h, coercionMsg]
  · simp [h]

/-- What `String()` does when the current field holds the string `s`. -/
theorem String_of_str (v : Validator) (s : String)
    (hv : (v.Fields.get v.CurrentField).Value = Value.str s) :
    v.String = (s,
      { Context := v.Context, CurrentField := v.CurrentField,
        Fields := v.Fields.set v.CurrentField
          { v.Fields.get v.CurrentField with DataType := StringDataType } }) := by
  unfold Validator.String
  dsimp only
  rw [hv]

/-- What `String()` does when the current field does not hold a string. -/
theorem String_of_not_str (v : Validator)
    (hv : ∀ s, (v.Fields.get v.CurrentField).Value ≠ Value.str s) :
    v.String = ("",
      { Context := v.Context, CurrentField := v.CurrentField,
        Fields := v.Fields.set v.CurrentField
          { v.Fields.get v.CurrentField with
            DataType := StringDataType
            Value := Value.str ""
            ErrMsg := (v.Fields.get v.CurrentField).ErrMsg ++
              coercionMsg { v.Fields.get v.CurrentField with DataType := StringDataType } } }) := by
  unfold Validator.String
  dsimp only
  cases hV : (v.Fields.get v.CurrentField).Value with
  | str s => exact absurd hV (hv s)
  | nil => simp [coercionMsg]
  | int i => simp [coercionMsg]
  | float32 b => simp [coercionMsg]

/-- What `File()` does when the current field has a file. -/
theorem File_of_some (v : Validator) (fh : FileHeader)
    (hf : (v.Fields.get v.CurrentField).File = some fh) :
    v.File = (some { Content := fh.Open, Name := (v.Fields.get v.CurrentField).FileName,
                     Extension := (v.Fields.get v.CurrentField).FileExtension },
      { Context := v.Context, CurrentField := v.CurrentField,
        Fields := v.Fields.set v.CurrentField
          { v.Fields.get v.CurrentField with DataType := FileDataType } }) := by
  unfold Validator.File
  dsimp only
  rw [hf]

theorem value_str_or_not (f : Field) : (∃ s, f.Value = Value.str s) ∨ ∀ s, f.Value ≠ Value.str s := by
  cases h : f.Value with
  | str s => exact Or.inl ⟨s, rfl⟩
  | nil => exact Or.inr (fun s => by simp)
  | int i => exact Or.inr (fun s => by simp)
  | float32 b => exact Or.inr (fun s => by simp)

/-- The common shape of a completed modifier or coercion: the validator is
left as it was, or the entry of the current field is replaced by a field `g`
with the same name; `g` keeps a non-empty message non-empty unless the call
is `Error`, and holds the old value unless the call is a coercion. -/
theorem call_shape (tbl : Char → Char) (pf : String → Nat × Bool) (op : Op) (v : Validator)
    (r : Returned) (v' : Validator) (hop : ∀ n s, op ≠ Op.addField n s)
    (h : call tbl pf op v = some (r, v')) :
    ∃ g : Field,
      (v' = v ∨ v' = { Context := v.Context, CurrentField := v.CurrentField,
                       Fields := v.Fields.set v.CurrentField g }) ∧
      g.Name = (v.Fields.get v.CurrentField).Name ∧
      ((∀ m, op ≠ Op.setError m) →
        (v.Fields.get v.CurrentField).ErrMsg ≠ "" → g.ErrMsg ≠ "") ∧
      (g.Value = (v.Fields.get v.CurrentField).Value ∨
        (op = Op.string ∧ ∃ t, g.Value = Value.str t) ∨
        (op = Op.int ∧ ∃ i, g.Value = Value.int i) ∨
        (op = Op.float32 ∧ ∃ b, g.Value = Value.float32 b)) ∧
      ((op = Op.required ∨ op = Op.int ∨ op = Op.float32) →
        ∃ t, (v.Fields.get v.CurrentField).Value = Value.str t) := by
  cases op with
  | addField n s => exact absurd rfl (hop n s)
  | required =>
    rcases value_str_or_not (v.Fields.get v.CurrentField) with ⟨s, hs⟩ | hn
    · rw [call, Required_of_str v s hs] at h
      simp only [Option.map_some', Option.some.injEq, Prod.mk.injEq] at h
      obtain ⟨_, rfl⟩ := h
      refine ⟨_, Or.inr rfl, ?_, ?_, ?_, fun _ => ⟨s, hs⟩⟩
      · split_ifs <;> rfl
      · intro _ hne
        split_ifs
        · exact requiredMsg_ne_empty _ _
        · exact hne
      · left
        split_ifs <;> rfl
    · rw [call, Required_of_not_str v hn] at h
      simp at h
  | optional =>
    simp only [call, Option.some.injEq, Prod.mk.injEq] at h
    obtain ⟨_, rfl⟩ := h
    exact ⟨_, Or.inr rfl, rfl, fun _ hne => hne, Or.inl rfl, fun h => by simp at h⟩
  | setDefault d =>
    cases d with
    | str t =>
      simp only [call, Validator.Default, Option.map_some', Option.some.injEq,
        Prod.mk.injEq] at h
      obtain ⟨_, rfl⟩ := h
      exact ⟨_, Or.inr rfl, rfl, fun _ hne => hne, Or.inl rfl, fun h => by simp at h⟩
    | nil => simp [call, Validator.Default] at h
    | int i => simp [call, Validator.Default] at h
    | float32 b => simp [call, Validator.Default] at h
  | setError m =>
    simp only [call, Option.some.injEq, Prod.mk.injEq] at h
    obtain ⟨_, rfl⟩ := h
    exact ⟨_, Or.inr rfl, rfl, fun hm => absurd rfl (hm m), Or.inl rfl, fun h => by simp at h⟩
  | string =>
    rcases value_str_or_not (v.Fields.get v.CurrentField) with ⟨s, hs⟩ | hn
    · rw [call, String_of_str v s hs] at h
      simp only [Option.some.injEq, Prod.mk.injEq] at h
      obtain ⟨_, rfl⟩ := h
      exact ⟨_, Or.inr rfl, rfl, fun _ hne => hne, Or.inl rfl, fun h => by simp at h⟩
    · rw [call, String_of_not_str v hn] at h
      simp only [Option.some.injEq, Prod.mk.injEq] at h
      obtain ⟨_, rfl⟩ := h
      exact ⟨_, Or.inr rfl, rfl, fun _ hne => append_ne_empty_of_left _ _ hne,
        Or.inr (Or.inl ⟨rfl, "", rfl⟩), fun h => by simp at h⟩
  | int =>
    rcases value_str_or_not (v.Fields.get v.CurrentField) with ⟨s, hs⟩ | hn
    · rw [call, Int_of_str v s hs] at h
      simp only [Option.map_some', Option.some.injEq, Prod.mk.injEq] at h
      obtain ⟨_, rfl⟩ := h
      refine ⟨_, Or.inr rfl, rfl, ?_, Or.inr (Or.inr (Or.inl ⟨rfl, _, rfl⟩)), fun _ => ⟨s, hs⟩⟩
      intro _ hne
      dsimp only
      split_ifs
      · exact append_ne_empty_of_left _ _ hne
      · exact hne
    · rw [call, Int_of_not_str v hn] at h
      simp at h
  | float32 =>
    rcases value_str_or_not (v.Fields.get v.CurrentField) with ⟨s, hs⟩ | hn
    · rw [call, Float32_of_str pf v s hs] at h
      simp only [Option.map_some', Option.some.injEq, Prod.mk.injEq] at h
      obtain ⟨_, rfl⟩ := h
      refine ⟨_, Or.inr rfl, rfl, ?_, Or.inr (Or.inr (Or.inr ⟨rfl, _, rfl⟩)), fun _ => ⟨s, hs⟩⟩
      intro _ hne
      dsimp only
      split_ifs
      · exact append_ne_empty_of_left _ _ hne
      · exact hne
    · rw [call, Float32_of_not_str pf v hn] at h
      simp at h
  | file =>
    cases hf : (v.Fields.get v.CurrentField).File with
    | none =>
      rw [call, File_of_nil v hf] at h
      simp only [Option.some.injEq, Prod.mk.injEq] at h
      obtain ⟨_, rfl⟩ := h
      exact ⟨v.Fields.get v.CurrentField, Or.inl rfl, rfl, fun _ hne => hne, Or.inl rfl,
        fun h => by simp at h⟩
    | some fh =>
      rw [call, File_of_some v fh hf] at h
      simp only [Option.some.injEq, Prod.mk.injEq] at h
      obtain ⟨_, rfl⟩ := h
      exact ⟨_, Or.inr rfl, rfl, fun _ hne => hne, Or.inl rfl, fun h => by simp at h⟩

/-! ## Messages once set -/

theorem keepsErrors_of_set (v : Validator) (c : String) (g : Field)
    (hg : (v.Fields.get c).ErrMsg ≠ "" → g.ErrMsg ≠ "") :
    ∀ k, (v.Fields.get k).ErrMsg ≠ "" → ((v.Fields.set c g).get k).ErrMsg ≠ "" := by
  intro k hk
  by_cases h : k = c
  · subst h
    rw [FieldMap.get_set_same]
    exact hg hk
  · rw [FieldMap.get_set_other _ _ _ _ h]
    exact hk

/-- Counterexample to C12 as stated: on the validator reached by
`Form("age").Required()`, whose field `age` carries a message, `Error("")`
clears the message, and so does registering `age` again. -/
theorem C12_counterexample :
    ((New emptyContext).Form id "age").Required.map (fun v => (v.Fields, v.CurrentField)) =
      some (requiredAgeState.Fields, requiredAgeState.CurrentField) ∧
    (requiredAgeState.Fields.get "age").ErrMsg ≠ "" ∧
    ((requiredAgeState.Error "").Fields.get "age").ErrMsg = "" ∧
    ((requiredAgeState.Form id "age").Fields.get "age").ErrMsg = "" ∧
    ¬ KeepsErrors requiredAgeState (requiredAgeState.Error "") ∧
    ¬ KeepsErrors requiredAgeState (requiredAgeState.Form id "age") := by
  refine ⟨by decide, by decide, by decide, by decide, ?_, ?_⟩
  · intro h
    exact h "age" (by decide) (by decide)
  · intro h
    exact h "age" (by decide) (by decide)

/-- C12, amended: for every validator state and every single completed call
among `Required`, `Optional`, `Default`, `Error` with a non-empty message,
`String`, `Int`, `Float32`, `File`, and an extraction call for a name whose
entry carries no message, each field whose `ErrMsg` was non-empty before the
call has a non-empty `ErrMsg` after it. -/
theorem C12_errors_kept (tbl : Char → Char) (pf : String → Nat × Bool) (op : Op)
    (v : Validator) (r : Returned) (v' : Validator)
    (hcall : call tbl pf op v = some (r, v')) (hop : op.sparesErrors v) :
    KeepsErrors v v' := by
  by_cases hadd : ∃ n s, op = Op.addField n s
  · obtain ⟨n, s, rfl⟩ := hadd
    simp only [call, Option.some.injEq, Prod.mk.injEq] at hcall
    obtain ⟨_, rfl⟩ := hcall
    exact keepsErrors_of_set v n _ (fun hne => absurd hop hne)
  · push_neg at hadd
    by_cases herr : ∃ m, op = Op.setError m
    · obtain ⟨m, rfl⟩ := herr
      simp only [call, Option.some.injEq, Prod.mk.injEq] at hcall
      obtain ⟨_, rfl⟩ := hcall
      exact keepsErrors_of_set v v.CurrentField _ (fun _ => hop)
    · push_neg at herr
      obtain ⟨g, hv', _, hmsg, _, _⟩ := call_shape tbl pf op v r v' hadd hcall
      rcases hv' with rfl | rfl
      · exact fun k hk => hk
      · exact keepsErrors_of_set v v.CurrentField g (hmsg herr)

/-- Witness of C12: on the validator reached by `Form("age").Required()`, the
call `Int()` completes and the field `age` keeps a message. -/
theorem C12_errors_kept_witness :
    ∃ r v', call id (fun _ => (0, true)) Op.int requiredAgeState = some (r, v') ∧
      (requiredAgeState.Fields.get "age").ErrMsg ≠ "" ∧ (v'.Fields.get "age").ErrMsg ≠ "" :=
  ⟨Returned.number 0, (requiredAgeState.Int.map Prod.snd).getD requiredAgeState, rfl,
    by decide,
    C12_errors_kept id (fun _ => (0, true)) Op.int requiredAgeState (Returned.number 0)
      ((requiredAgeState.Int.map Prod.snd).getD requiredAgeState) rfl trivial
      "age" (by decide)⟩

/-! ## The modifiers -/

/-- Counterexample to C13 as stated: on the validator reached by
`Form("age").Required()` the current field holds the empty string and no
file, yet a further `Required()` leaves its `ErrMsg` as it was. -/
theorem C13_counterexample :
    (requiredAgeState.Fields.get requiredAgeState.CurrentField).Value = Value.str "" ∧
    (requiredAgeState.Fields.get requiredAgeState.CurrentField).File = none ∧
    requiredAgeState.Required.map (fun v => (v.Fields.get "age").ErrMsg) =
      some (requiredAgeState.Fields.get requiredAgeState.CurrentField).ErrMsg ∧
    ∃ v', requiredAgeState.Required = some v' ∧
      ¬((v'.Fields.get "age").ErrMsg ≠ (requiredAgeState.Fields.get "age").ErrMsg ↔
        (requiredAgeState.Fields.get "age").Value = Value.str "" ∧
          (requiredAgeState.Fields.get "age").File = none) :=
  ⟨by decide, by decide, by decide, requiredAgeState.Required.getD requiredAgeState, rfl,
    by decide⟩

/-- C13, amended: when the current field holds a string raw value `s`,
`Required()` sets `Required` to true; when `s` is empty and no file is
present it replaces `ErrMsg` by the presence message, which is non-empty,
and otherwise leaves `ErrMsg` as it was; hence `ErrMsg` changes if and only
if `s` is empty, no file is present and `ErrMsg` was not already the
presence message. For a freshly registered field: with a non-empty value
`ErrMsg` is empty before and after, and with an empty value and no file
`ErrMsg` is non-empty afterwards. -/
theorem C13_Required_presence :
    (∀ (v : Validator) (s : String), (v.Fields.get v.CurrentField).Value = Value.str s →
      ∃ v', v.Required = some v' ∧ v'.CurrentField = v.CurrentField ∧
        (v'.Fields.get v.CurrentField).Required = true ∧
        (s = "" ∧ (v.Fields.get v.CurrentField).File = none →
          (v'.Fields.get v.CurrentField).ErrMsg =
            "`" ++ (v.Fields.get v.CurrentField).Name ++ "` must be specified in " ++
              (v.Fields.get v.CurrentField).FieldType ∧
          (v'.Fields.get v.CurrentField).ErrMsg ≠ "") ∧
        (¬(s = "" ∧ (v.Fields.get v.CurrentField).File = none) →
          (v'.Fields.get v.CurrentField).ErrMsg = (v.Fields.get v.CurrentField).ErrMsg) ∧
        ((v'.Fields.get v.CurrentField).ErrMsg ≠ (v.Fields.get v.CurrentField).ErrMsg ↔
          (s = "" ∧ (v.Fields.get v.CurrentField).File = none) ∧
            (v.Fields.get v.CurrentField).ErrMsg ≠
              "`" ++ (v.Fields.get v.CurrentField).Name ++ "` must be specified in " ++
                (v.Fields.get v.CurrentField).FieldType)) ∧
    (∀ (tbl : Char → Char) (v : Validator) (n t : String),
      ∃ s v', ((v.AddField tbl n t).Fields.get n).Value = Value.str s ∧
        (v.AddField tbl n t).Required = some v' ∧
        (s ≠ "" → ((v.AddField tbl n t).Fields.get n).ErrMsg = "" ∧
          (v'.Fields.get n).ErrMsg = "") ∧
        (s = "" ∧ ((v.AddField tbl n t).Fields.get n).File = none →
          (v'.Fields.get n).ErrMsg ≠ "")) := by
  have key : ∀ (v : Validator) (s : String),
      (v.Fields.get v.CurrentField).Value = Value.str s →
      ∃ v', v.Required = some v' ∧ v'.CurrentField = v.CurrentField ∧
        (v'.Fields.get v.CurrentField).Required = true ∧
        (s = "" ∧ (v.Fields.get v.CurrentField).File = none →
          (v'.Fields.get v.CurrentField).ErrMsg =
            "`" ++ (v.Fields.get v.CurrentField).Name ++ "` must be specified in " ++
              (v.Fields.get v.CurrentField).FieldType ∧
          (v'.Fields.get v.CurrentField).ErrMsg ≠ "") ∧
        (¬(s = "" ∧ (v.Fields.get v.CurrentField).File = none) →
          (v'.Fields.get v.CurrentField).ErrMsg = (v.Fields.get v.CurrentField).ErrMsg) := by
    intro v s hv
    refine ⟨_, Required_of_str v s hv, rfl, ?_, ?_, ?_⟩
    · rw [FieldMap.get_set_same]
      split_ifs <;> rfl
    · intro h
      rw [FieldMap.get_set_same, if_pos h]
      exact ⟨rfl, requiredMsg_ne_empty _ _⟩
    · intro h
      rw [FieldMap.get_set_same, if_neg h]
  constructor
  · intro v s hv
    obtain ⟨v', h1, h2, h3, h4, h5⟩ := key v s hv
    refine ⟨v', h1, h2, h3, h4, h5, ?_⟩
    by_cases habs : s = "" ∧ (v.Fields.get v.CurrentField).File = none
    · rw [(h4 habs).1]
      constructor
      · intro h
        exact ⟨habs, fun e => h e.symm⟩
      · rintro ⟨_, h⟩ e
        exact h e.symm
    · rw [h5 habs]
      constructor
      · intro h
        exact absurd rfl h
      · rintro ⟨h, _⟩
        exact absurd h habs
  · intro tbl v n t
    have hget : (v.AddField tbl n t).Fields.get n = newField (extract tbl v.Context n t) n t :=
      FieldMap.get_set_same _ _ _
    obtain ⟨_, _, _, hErr⟩ := newField_facts tbl v.Context n t
    have hstr : ∃ s, (newField (extract tbl v.Context n t) n t).Value = Value.str s := by
      unfold newField
      split
      · exact ⟨_, rfl⟩
      · exact ⟨_, rfl⟩
    obtain ⟨s, hs⟩ := hstr
    have hcur : (v.AddField tbl n t).CurrentField = n := rfl
    obtain ⟨v', h1, _, _, h4, h5⟩ := key (v.AddField tbl n t) s (by rw [hcur, hget]; exact hs)
    rw [hcur] at h4 h5
    refine ⟨s, v', by rw [hget]; exact hs, h1, ?_, ?_⟩
    · intro hne
      have hE : ((v.AddField tbl n t).Fields.get n).ErrMsg = "" := by
        rw [hget]
        rcases hErr with h | h
        · exact h
        · rw [hs] at h
          exact absurd (Value.str.inj h) hne
      refine ⟨hE, ?_⟩
      rw [h5 (fun h => hne h.1)]
      exact hE
    · intro h
      exact (h4 h).2

/-- Witness of C13: on a field registered with the value `30`, `Required()`
leaves the message empty; on a field registered without a value it sets the
presence message. -/
theorem C13_Required_presence_witness :
    (∃ v', ((New ageContext).Form id "age").Required = some v' ∧
      (v'.Fields.get "age").Required = true ∧ (v'.Fields.get "age").ErrMsg = "") ∧
    (∃ v', ((New emptyContext).Form id "age").Required = some v' ∧
      (v'.Fields.get "age").ErrMsg = "`age` must be specified in form-urlencoded") := by
  constructor
  · obtain ⟨v', h1, _, h3, _, h5, _⟩ :=
      C13_Required_presence.1 ((New ageContext).Form id "age") "30" (by decide)
    exact ⟨v', h1, h3, (h5 (by decide)).trans (by decide)⟩
  · obtain ⟨v', h1, _, _, h4, _, _⟩ :=
      C13_Required_presence.1 ((New emptyContext).Form id "age") "" (by decide)
    exact ⟨v', h1, ((h4 (by decide)).1).trans (by decide)⟩

theorem Multipart_not_found (tbl : Char → Char) (v : Validator) (n : String)
    (hf : v.Context.FormFile n = none) :
    (v.Multipart tbl n).Fields.get n =
      { Name := n, FieldType := TypeMultipartFile, Value := Value.str "", File := none,
        FileName := "", FileExtension := "", DataType := DefaultDataType, DefaultValue := "",
        ErrMsg := "file not found", Required := false } := by
  have h1 : TypeMultipartFile ≠ TypeQueryString := by decide
  have h2 : TypeMultipartFile ≠ TypeURLParam := by decide
  have h3 : TypeMultipartFile ≠ TypeFormData := by decide
  have h4 : TypeMultipartFile ≠ TypeFormURLEncoded := by decide
  show (v.Fields.set n _).get n = _
  rw [FieldMap.get_set_same]
  simp [extract, newField, h1, h2, h3, h4, hf]

/-- C15: when the current field has an empty raw value and no file,
`Required()` after any message `X` was put on the field leaves the presence
message alone, an expression without `X`; so it does for a multipart-file
field whose extraction failed with the message `file not found`. -/
theorem C15_Required_overwrites :
    (∀ (v : Validator) (X : String),
      (v.Fields.get v.CurrentField).Value = Value.str "" →
      (v.Fields.get v.CurrentField).File = none →
      ((v.Error X).Fields.get v.CurrentField).ErrMsg = X ∧
      ∃ v', (v.Error X).Required = some v' ∧
        (v'.Fields.get v.CurrentField).ErrMsg =
          "`" ++ (v.Fields.get v.CurrentField).Name ++ "` must be specified in " ++
            (v.Fields.get v.CurrentField).FieldType) ∧
    (∀ (tbl : Char → Char) (v : Validator) (n : String), v.Context.FormFile n = none →
      ((v.Multipart tbl n).Fields.get n).ErrMsg = "file not found" ∧
      ∃ v', (v.Multipart tbl n).Required = some v' ∧
        (v'.Fields.get n).ErrMsg = "`" ++ n ++ "` must be specified in " ++ TypeMultipartFile) := by
  constructor
  · intro v X hv hf
    have hget : (v.Error X).Fields.get (v.Error X).CurrentField =
        { v.Fields.get v.CurrentField with ErrMsg := X } := FieldMap.get_set_same _ _ _
    have hcur : (v.Error X).CurrentField = v.CurrentField := rfl
    refine ⟨by rw [← hcur, hget], _, Required_of_str (v.Error X) "" (by rw [hget]; exact hv), ?_⟩
    rw [← hcur, FieldMap.get_set_same, hget]
    simp only [hf, and_self, if_true]
    rw [hcur]
  · intro tbl v n hfile
    have hget := Multipart_not_found tbl v n hfile
    have hcur : (v.Multipart tbl n).CurrentField = n := rfl
    refine ⟨by rw [hget], _,
      Required_of_str (v.Multipart tbl n) "" (by rw [hcur, hget]), ?_⟩
    rw [hcur, FieldMap.get_set_same, hget]
    simp

/-- Witness of C15: the multipart field `doc` of a request without files, and
the field `age` after `Error("X")`. -/
theorem C15_Required_overwrites_witness :
    (((New emptyContext).Multipart id "doc").Fields.get "doc").ErrMsg = "file not found" ∧
    (∃ v', ((New emptyContext).Multipart id "doc").Required = some v' ∧
      (v'.Fields.get "doc").ErrMsg = "`doc` must be specified in multipart-file") ∧
    (∃ v', (requiredAgeState.Error "X").Required = some v' ∧
      (v'.Fields.get "age").ErrMsg = "`age` must be specified in form-urlencoded") := by
  obtain ⟨h1, v', h2, h3⟩ := C15_Required_overwrites.2 id (New emptyContext) "doc" rfl
  obtain ⟨_, w', h4, h5⟩ :=
    C15_Required_overwrites.1 requiredAgeState "X" (by decide) (by decide)
  exact ⟨h1, ⟨v', h2, h3.trans (by decide)⟩, ⟨w', h4, h5.trans (by decide)⟩⟩

theorem FieldMap.set_set (m : FieldMap) (k : String) (f g : Field) :
    (m.set k f).set k g = m.set k g := by
  induction m with
  | nil => simp [FieldMap.set]
  | cons e rest ih =>
    obtain ⟨k', f'⟩ := e
    by_cases h : k' = k
    · simp [FieldMap.set, h]
    · simp [FieldMap.set, h, ih]

/-- C17: when the current field holds a string raw value, applying
`Required()`, `Optional()`, `Default(d)` or `Error(m)` a second time leaves
the validator reached by the first application as it is. -/
theorem C17_modifiers_idempotent (v : Validator) (s : String)
    (hv : (v.Fields.get v.CurrentField).Value = Value.str s) :
    (∃ v', v.Required = some v' ∧ v'.Required = some v') ∧
    v.Optional.Optional = v.Optional ∧
    (∀ d : String, ∃ v', v.Default (Value.str d) = some v' ∧
      v'.Default (Value.str d) = some v') ∧
    (∀ m : String, (v.Error m).Error m = v.Error m) := by
  refine ⟨?_, ?_, ?_, ?_⟩
  · refine ⟨_, Required_of_str v s hv, ?_⟩
    by_cases habs : s = "" ∧ (v.Fields.get v.CurrentField).File = none
    · rw [Required_of_str _ s (by simp only [FieldMap.get_set_same, if_pos habs]; exact hv)]
      simp only [FieldMap.get_set_same, if_pos habs, FieldMap.set_set, and_self, if_true]
    · rw [Required_of_str _ s (by simp only [FieldMap.get_set_same, if_neg habs]; exact hv)]
      simp only [FieldMap.get_set_same, if_neg habs, FieldMap.set_set, if_false]
  · simp only [Validator.Optional, FieldMap.get_set_same, FieldMap.set_set]
  · intro d
    refine ⟨_, rfl, ?_⟩
    simp only [Validator.Default, FieldMap.get_set_same, FieldMap.set_set]
  · intro m
    simp only [Validator.Error, FieldMap.get_set_same, FieldMap.set_set]

/-- Witness of C17: the validator reached by `Form("age").Required()`. -/
theorem C17_modifiers_idempotent_witness :
    (∃ v', requiredAgeState.Required = some v' ∧ v'.Required = some v') ∧
    requiredAgeState.Optional.Optional = requiredAgeState.Optional ∧
    (∀ d : String, ∃ v', requiredAgeState.Default (Value.str d) = some v' ∧
      v'.Default (Value.str d) = some v') ∧
    (∀ m : String, (requiredAgeState.Error m).Error m = requiredAgeState.Error m) :=
  C17_modifiers_idempotent requiredAgeState "" (by decide)

/-! ## Frame of the calls -/

theorem FieldMap.mem_set_of_mem (m : FieldMap) (k : String) (f : Field) (e : String × Field)
    (he : e ∈ m) (hk : e.1 ≠ k) : e ∈ m.set k f := by
  induction m with
  | nil => simp at he
  | cons e₀ rest ih =>
    obtain ⟨k', f'⟩ := e₀
    by_cases h : k' = k
    · simp only [FieldMap.set, h, if_true]
      rcases List.mem_cons.1 he with rfl | he
      · exact absurd h hk
      · exact List.mem_cons_of_mem _ he
    · simp only [FieldMap.set, h, if_false]
      rcases List.mem_cons.1 he with rfl | he
      · exact List.mem_cons_self _ _
      · exact List.mem_cons_of_mem _ (ih he)

theorem leavesOthers_set (m : FieldMap) (k : String) (g : Field) :
    LeavesOthers k m (m.set k g) := by
  refine ⟨fun k' hk' => FieldMap.get_set_other m k k' g hk', fun e he => ⟨fun h => ?_, fun h => ?_⟩⟩
  · rcases FieldMap.mem_of_mem_set m k g e h with rfl | h
    · exact absurd rfl he
    · exact h
  · exact FieldMap.mem_set_of_mem m k g e h he

theorem leavesOthers_refl (k : String) (m : FieldMap) : LeavesOthers k m m :=
  ⟨fun _ _ => rfl, fun _ _ => Iff.rfl⟩

/-- C18: every completed modifier (`Required`, `Optional`, `Default`,
`Error`) and terminal coercion (`String`, `Int`, `Float32`, `File`) keeps
the cursor and leaves the map as it was outside the current field; a
completed extraction call for the name `n` leaves the map as it was outside
`n`. -/
theorem C18_frame (tbl : Char → Char) (pf : String → Nat × Bool) (op : Op) (v : Validator)
    (r : Returned) (v' : Validator) (hcall : call tbl pf op v = some (r, v')) :
    ((∀ n s, op ≠ Op.addField n s) →
      v'.CurrentField = v.CurrentField ∧ LeavesOthers v.CurrentField v.Fields v'.Fields) ∧
    (∀ n s, op = Op.addField n s → LeavesOthers n v.Fields v'.Fields) := by
  constructor
  · intro hop
    obtain ⟨g, hv', _⟩ := call_shape tbl pf op v r v' hop hcall
    rcases hv' with rfl | rfl
    · exact ⟨rfl, leavesOthers_refl _ _⟩
    · exact ⟨rfl, leavesOthers_set _ _ _⟩
  · rintro n s rfl
    simp only [call, Option.some.injEq, Prod.mk.injEq] at hcall
    obtain ⟨_, rfl⟩ := hcall
    exact leavesOthers_set _ _ _

/-- Witness of C18: on `twoFieldState`, whose cursor is on `id`, the calls
`Required()` and `Form("id")` complete and leave the entry of `age` as it
was. -/
theorem C18_frame_witness :
    (∃ r v', call id (fun _ => (0, true)) Op.required twoFieldState = some (r, v') ∧
      v'.CurrentField = "id" ∧ v'.Fields.get "age" = twoFieldState.Fields.get "age") ∧
    (∃ r v', call id (fun _ => (0, true)) (Op.addField "id" TypeFormURLEncoded) twoFieldState =
        some (r, v') ∧ v'.Fields.get "age" = twoFieldState.Fields.get "age") := by
  constructor
  · have h := (C18_frame id (fun _ => (0, true)) Op.required twoFieldState Returned.validator
      (twoFieldState.Required.getD twoFieldState) rfl).1 (fun _ _ => by simp)
    exact ⟨_, _, rfl, h.1, h.2.1 "age" (by decide)⟩
  · have h := (C18_frame id (fun _ => (0, true)) (Op.addField "id" TypeFormURLEncoded)
      twoFieldState Returned.validator (twoFieldState.Form id "id") rfl).2 _ _ rfl
    exact ⟨_, _, rfl, h.1 "age" (by decide)⟩

/-! ## Reachable states -/

theorem FieldMap.mem_keys_set (m : FieldMap) (k : String) (f : Field) : k ∈ (m.set k f).keys := by
  have := FieldMap.mem_set_self m k f
  exact List.mem_map.2 ⟨(k, f), this, rfl⟩

theorem FieldMap.get_mem (m : FieldMap) (k : String) (hk : k ∈ m.keys) : (k, m.get k) ∈ m := by
  induction m with
  | nil => simp [FieldMap.keys] at hk
  | cons e rest ih =>
    obtain ⟨k', f'⟩ := e
    by_cases h : k' = k
    · subst h
      simp [FieldMap.get]
    · have hk' : k ∈ FieldMap.keys rest := by
        simp only [FieldMap.keys, List.map_cons, List.mem_cons] at hk
        rcases hk with hk | hk
        · exact absurd hk.symm h
        · exact hk
      simp only [FieldMap.get, h, if_false]
      exact List.mem_cons_of_mem _ (ih hk')

theorem wellFormed_set (v : Validator) (k : String) (g : Field) (hg : g.Name = k)
    (hent : ∀ e ∈ v.Fields, e.2.Name = e.1) :
    WellFormed { Context := v.Context, CurrentField := k, Fields := v.Fields.set k g } := by
  refine ⟨FieldMap.mem_keys_set _ _ _, fun e he => ?_⟩
  rcases FieldMap.mem_of_mem_set _ _ _ _ he with rfl | he
  · exact hg
  · exact hent e he

/-- An extraction call makes the validator well formed when every entry is
stored under its name. -/
theorem wellFormed_AddField (tbl : Char → Char) (v : Validator) (n s : String)
    (hent : ∀ e ∈ v.Fields, e.2.Name = e.1) : WellFormed (v.AddField tbl n s) :=
  wellFormed_set v n _ (newField_facts tbl v.Context n s).1 hent

/-- Every completed call keeps the validator well formed. -/
theorem wellFormed_call (tbl : Char → Char) (pf : String → Nat × Bool) (op : Op) (v : Validator)
    (r : Returned) (v' : Validator) (hwf : WellFormed v)
    (hcall : call tbl pf op v = some (r, v')) : WellFormed v' := by
  by_cases hadd : ∃ n s, op = Op.addField n s
  · obtain ⟨n, s, rfl⟩ := hadd
    simp only [call, Option.some.injEq, Prod.mk.injEq] at hcall
    obtain ⟨_, rfl⟩ := hcall
    exact wellFormed_AddField tbl v n s hwf.2
  · push_neg at hadd
    obtain ⟨g, hv', hname, _⟩ := call_shape tbl pf op v r v' hadd hcall
    rcases hv' with rfl | rfl
    · exact hwf
    · refine wellFormed_set v v.CurrentField g ?_ hwf.2
      rw [hname]
      exact hwf.2 _ (FieldMap.get_mem _ _ hwf.1)

theorem run_cons (tbl : Char → Char) (pf : String → Nat × Bool) (op : Op) (ops : List Op)
    (v : Validator) (outs : List Returned) (w : Validator) :
    run tbl pf (op :: ops) v = some (outs, w) ↔
      ∃ r v' rs, call tbl pf op v = some (r, v') ∧ run tbl pf ops v' = some (rs, w) ∧
        outs = r :: rs := by
  rw [run]
  cases hc : call tbl pf op v with
  | none => simp
  | some p =>
    obtain ⟨r, v'⟩ := p
    cases hr : run tbl pf ops v' with
    | none => simp [hr]
    | some q =>
      obtain ⟨rs, w'⟩ := q
      simp only [hr, Option.some.injEq, Prod.mk.injEq]
      constructor
      · rintro ⟨h1, h2⟩
        exact ⟨r, v', rs, ⟨rfl, rfl⟩, by rw [hr, h2], h1.symm⟩
      · rintro ⟨r', v'', rs', ⟨h1, h2⟩, h3, h4⟩
        rw [← h2, hr] at h3
        simp only [Option.some.injEq, Prod.mk.injEq] at h3
        rw [h4, ← h1, ← h3.1]
        exact ⟨rfl, h3.2⟩

theorem wellFormed_run (tbl : Char → Char) (pf : String → Nat × Bool) (ops : List Op)
    (v : Validator) (outs : List Returned) (w : Validator) (hwf : WellFormed v)
    (hrun : run tbl pf ops v = some (outs, w)) : WellFormed w := by
  induction ops generalizing v outs with
  | nil =>
    simp only [run, Option.some.injEq, Prod.mk.injEq] at hrun
    rw [← hrun.2]
    exact hwf
  | cons op ops ih =>
    obtain ⟨r, v', rs, hc, hr, _⟩ := (run_cons tbl pf op ops v outs w).1 hrun
    exact ih v' rs (wellFormed_call tbl pf op v r v' hwf hc) hr

/-- C19: in every state reached from `New()` by a sequence of completed
calls (extraction calls, modifiers, coercions) that starts with an
extraction call, the cursor is a key of the map and every entry's name is
the key it is stored under. -/
theorem C19_reachable_well_formed (tbl : Char → Char) (pf : String → Nat × Bool)
    (ctx : Context) (n s : String) (ops : List Op) (outs : List Returned) (v : Validator)
    (hrun : run tbl pf (Op.addField n s :: ops) (New ctx) = some (outs, v)) :
    v.CurrentField ∈ v.Fields.keys ∧ ∀ e ∈ v.Fields, e.2.Name = e.1 := by
  have h0 : WellFormed ((New ctx).AddField tbl n s) :=
    wellFormed_AddField tbl (New ctx) n s (by simp [New])
  obtain ⟨r, v', rs, hc, hr, _⟩ := (run_cons tbl pf _ ops _ outs v).1 hrun
  simp only [call, Option.some.injEq, Prod.mk.injEq] at hc
  rw [← hc.2] at hr
  exact wellFormed_run tbl pf ops _ rs v h0 hr

/-- Witness of C19: `Form("age").Required().Int()` then `Param("id")` and
`String()` on a request without values. -/
theorem C19_reachable_well_formed_witness :
    ∃ outs v, run id (fun _ => (0, true))
        [Op.addField "age" TypeFormURLEncoded, Op.required, Op.int,
         Op.addField "id" TypeURLParam, Op.string] (New emptyContext) = some (outs, v) ∧
      v.CurrentField = "id" ∧ v.Fields.keys = ["age", "id"] ∧
      v.CurrentField ∈ v.Fields.keys ∧ ∀ e ∈ v.Fields, e.2.Name = e.1 :=
  ⟨_, _, rfl, rfl, by decide,
    C19_reachable_well_formed id (fun _ => (0, true)) emptyContext "age" TypeFormURLEncoded
      [Op.required, Op.int, Op.addField "id" TypeURLParam, Op.string] _ _ rfl⟩

/-! ## Safety of the type assertions -/

theorem AddField_value (tbl : Char → Char) (v : Validator) (n s : String) :
    ∃ t, ((v.AddField tbl n s).Fields.get n).Value = Value.str t := by
  have hget : (v.AddField tbl n s).Fields.get n = newField (extract tbl v.Context n s) n s :=
    FieldMap.get_set_same _ _ _
  rw [hget]
  unfold newField
  split
  · exact ⟨_, rfl⟩
  · exact ⟨_, rfl⟩

/-- A modifier on a current field holding a string completes and leaves that
value in place. -/
theorem modifier_keeps_value (tbl : Char → Char) (pf : String → Nat × Bool) (op : Op)
    (v : Validator) (t : String) (hop : op.isModifier)
    (hv : (v.Fields.get v.CurrentField).Value = Value.str t) :
    ∃ r v', call tbl pf op v = some (r, v') ∧ v'.CurrentField = v.CurrentField ∧
      (v'.Fields.get v.CurrentField).Value = Value.str t := by
  cases op with
  | required =>
    have hR := Required_of_str v t hv
    refine ⟨Returned.validator, (v.Required).getD v, ?_, ?_, ?_⟩
    · rw [call, hR]
      rfl
    · rw [hR]
      rfl
    · rw [hR]
      show ((v.Fields.set v.CurrentField _).get v.CurrentField).Value = _
      rw [FieldMap.get_set_same]
      split_ifs <;> exact hv
  | optional =>
    refine ⟨_, _, rfl, rfl, ?_⟩
    show ((v.Fields.set v.CurrentField _).get v.CurrentField).Value = _
    rw [FieldMap.get_set_same]
    exact hv
  | setDefault d =>
    cases d with
    | str d =>
      refine ⟨_, _, rfl, rfl, ?_⟩
      show ((v.Fields.set v.CurrentField _).get v.CurrentField).Value = _
      rw [FieldMap.get_set_same]
      exact hv
    | nil => exact absurd hop (by simp [Op.isModifier])
    | int i => exact absurd hop (by simp [Op.isModifier])
    | float32 b => exact absurd hop (by simp [Op.isModifier])
  | setError m =>
    refine ⟨_, _, rfl, rfl, ?_⟩
    show ((v.Fields.set v.CurrentField _).get v.CurrentField).Value = _
    rw [FieldMap.get_set_same]
    exact hv
  | addField n s => exact absurd hop (by simp [Op.isModifier])
  | string => exact absurd hop (by simp [Op.isModifier])
  | int => exact absurd hop (by simp [Op.isModifier])
  | float32 => exact absurd hop (by simp [Op.isModifier])
  | file => exact absurd hop (by simp [Op.isModifier])

theorem modifiers_keep_value (tbl : Char → Char) (pf : String → Nat × Bool) (mods : List Op)
    (v : Validator) (t : String) (hmods : ∀ op ∈ mods, op.isModifier)
    (hv : (v.Fields.get v.CurrentField).Value = Value.str t) :
    ∃ outs w, run tbl pf mods v = some (outs, w) ∧ w.CurrentField = v.CurrentField ∧
      (w.Fields.get v.CurrentField).Value = Value.str t := by
  induction mods generalizing v with
  | nil => exact ⟨[], v, rfl, rfl, hv⟩
  | cons op ops ih =>
    obtain ⟨r, v', hc, hcur, hv'⟩ :=
      modifier_keeps_value tbl pf op v t (hmods op (List.mem_cons_self _ _)) hv
    obtain ⟨outs, w, hr, hwc, hwv⟩ :=
      ih v' (fun o ho => hmods o (List.mem_cons_of_mem _ ho)) (by rw [hcur]; exact hv')
    rw [hcur] at hwc hwv
    exact ⟨r :: outs, w, (run_cons tbl pf op ops v _ w).2 ⟨r, v', outs, hc, hr, rfl⟩, hwc, hwv⟩

theorem valueHistory_call (tbl : Char → Char) (pf : String → Nat × Bool) (op : Op)
    (v : Validator) (r : Returned) (v' : Validator) (pre : List Op)
    (hJ : ValueHistory pre v) (hc : call tbl pf op v = some (r, v')) :
    ValueHistory (pre ++ [op]) v' := by
  by_cases hadd : ∃ n s, op = Op.addField n s
  · obtain ⟨n, s, rfl⟩ := hadd
    simp only [call, Option.some.injEq, Prod.mk.injEq] at hc
    obtain ⟨_, rfl⟩ := hc
    exact Or.inl (AddField_value tbl v n s)
  · push_neg at hadd
    obtain ⟨g, hv', _, _, hval, _⟩ := call_shape tbl pf op v r v' hadd hc
    have hkeep : ValueHistory pre v → ValueHistory (pre ++ [op]) v := by
      rintro (h | ⟨h1, h2⟩ | h)
      · exact Or.inl h
      · refine Or.inr (Or.inl ⟨h1, ?_⟩)
        rcases h2 with h2 | h2
        · exact Or.inl (List.mem_append_left _ h2)
        · exact Or.inr (List.mem_append_left _ h2)
      · refine Or.inr (Or.inr (fun n s hmem => ?_))
        rcases List.mem_append.1 hmem with hm | hm
        · exact h n s hm
        · exact hadd n s (List.mem_singleton.1 hm).symm
    rcases hv' with rfl | rfl
    · exact hkeep hJ
    · have hget : (FieldMap.get (v.Fields.set v.CurrentField g) v.CurrentField).Value = g.Value := by
        rw [FieldMap.get_set_same]
      rcases hval with h | ⟨_, t, h⟩ | ⟨rfl, i, h⟩ | ⟨rfl, b, h⟩
      · have := hkeep hJ
        unfold ValueHistory at this ⊢
        simp only [hget, h]
        exact this
      · exact Or.inl ⟨t, by simp only [hget, h]⟩
      · exact Or.inr (Or.inl ⟨Or.inl ⟨i, by simp only [hget, h]⟩, Or.inl (by simp)⟩)
      · exact Or.inr (Or.inl ⟨Or.inr ⟨b, by simp only [hget, h]⟩, Or.inr (by simp)⟩)

theorem valueHistory_run (tbl : Char → Char) (pf : String → Nat × Bool) (ops pre : List Op)
    (v : Validator) (outs : List Returned) (w : Validator)
    (hJ : ValueHistory pre v) (hrun : run tbl pf ops v = some (outs, w)) :
    ValueHistory (pre ++ ops) w := by
  induction ops generalizing pre v outs with
  | nil =>
    simp only [run, Option.some.injEq, Prod.mk.injEq] at hrun
    rw [← hrun.2, List.append_nil]
    exact hJ
  | cons op ops ih =>
    obtain ⟨r, v', rs, hc, hr, _⟩ := (run_cons tbl pf op ops v outs w).1 hrun
    have := ih (pre ++ [op]) v' rs (valueHistory_call tbl pf op v r v' pre hJ hc) hr
    simpa using this

/-- C20: after an extraction call for `n` (any source kind, any outcome of a
file lookup) and any sequence of `Required()`, `Optional()`, `Default(d)`
with a string `d` and `Error(m)`, every call completes, the cursor is on `n`
and the stored value is the string stored by the extraction call, so
`Required()`, `Int()` and `Float32()` complete on it. In a state reached
from `New()` by completed calls, `Required()`, `Int()` or `Float32()` panics
only when no extraction call was made or an earlier `Int()` or `Float32()`
put a number in the value slot. -/
theorem C20_assertion_safety :
    (∀ (tbl : Char → Char) (pf : String → Nat × Bool) (v : Validator) (n s : String)
        (mods : List Op), (∀ op ∈ mods, op.isModifier) →
      ∃ outs w t, run tbl pf mods (v.AddField tbl n s) = some (outs, w) ∧
        w.CurrentField = n ∧
        ((v.AddField tbl n s).Fields.get n).Value = Value.str t ∧
        (w.Fields.get n).Value = Value.str t ∧
        (∃ w', w.Required = some w') ∧ (∃ i w', w.Int = some (i, w')) ∧
        ∃ b w', w.Float32 pf = some (b, w')) ∧
    (∀ (tbl : Char → Char) (pf : String → Nat × Bool) (ctx : Context) (ops : List Op)
        (outs : List Returned) (v : Validator),
      run tbl pf ops (New ctx) = some (outs, v) →
      (v.Required = none ∨ v.Int = none ∨ v.Float32 pf = none) →
      (∀ n s, Op.addField n s ∉ ops) ∨
        ((Op.int ∈ ops ∨ Op.float32 ∈ ops) ∧
          ((∃ i, (v.Fields.get v.CurrentField).Value = Value.int i) ∨
            ∃ b, (v.Fields.get v.CurrentField).Value = Value.float32 b))) := by
  constructor
  · intro tbl pf v n s mods hmods
    obtain ⟨t, ht⟩ := AddField_value tbl v n s
    have hcur : (v.AddField tbl n s).CurrentField = n := rfl
    obtain ⟨outs, w, hr, hwc, hwv⟩ :=
      modifiers_keep_value tbl pf mods (v.AddField tbl n s) t hmods (by rw [hcur]; exact ht)
    rw [hcur] at hwc hwv
    have hw : (w.Fields.get w.CurrentField).Value = Value.str t := by rw [hwc]; exact hwv
    exact ⟨outs, w, t, hr, hwc, ht, hwv, ⟨_, Required_of_str w t hw⟩, ⟨_, _, Int_of_str w t hw⟩,
      ⟨_, _, Float32_of_str pf w t hw⟩⟩
  · intro tbl pf ctx ops outs v hrun hpanic
    have hJ : ValueHistory ([] ++ ops) v :=
      valueHistory_run tbl pf ops [] (New ctx) outs v (Or.inr (Or.inr (fun _ _ h => by simp at h)))
        hrun
    rw [List.nil_append] at hJ
    have hns : ∀ t, (v.Fields.get v.CurrentField).Value ≠ Value.str t := by
      intro t ht
      rcases hpanic with h | h | h
      · rw [Required_of_str v t ht] at h
        simp at h
      · rw [Int_of_str v t ht] at h
        simp at h
      · rw [Float32_of_str pf v t ht] at h
        simp at h
    rcases hJ with ⟨t, ht⟩ | ⟨h1, h2⟩ | h
    · exact absurd ht (hns t)
    · exact Or.inr ⟨h2, h1⟩
    · exact Or.inl h

/-- Witness of C20: the multipart field `doc` of a request without files
after `Required().Optional().Default("x").Error("m")`; and the field `age`
after `Int()`, on which a second `Int()` panics. -/
theorem C20_assertion_safety_witness :
    (∃ outs w t, run id (fun _ => (0, true))
        [Op.required, Op.optional, Op.setDefault (Value.str "x"), Op.setError "m"]
        ((New emptyContext).AddField id "doc" TypeMultipartFile) = some (outs, w) ∧
      w.CurrentField = "doc" ∧
      (((New emptyContext).AddField id "doc" TypeMultipartFile).Fields.get "doc").Value =
        Value.str t ∧
      (w.Fields.get "doc").Value = Value.str t ∧
      (∃ w', w.Required = some w') ∧ (∃ i w', w.Int = some (i, w')) ∧
      ∃ b w', w.Float32 (fun _ => (0, true)) = some (b, w')) ∧
    (∃ outs v, run id (fun _ => (0, true)) [Op.addField "age" TypeFormURLEncoded, Op.int]
        (New emptyContext) = some (outs, v) ∧ v.Int = none ∧
      (Op.int ∈ [Op.addField "age" TypeFormURLEncoded, Op.int] ∨
        Op.float32 ∈ [Op.addField "age" TypeFormURLEncoded, Op.int])) := by
  refine ⟨C20_assertion_safety.1 id (fun _ => (0, true)) (New emptyContext) "doc"
      TypeMultipartFile [Op.required, Op.optional, Op.setDefault (Value.str "x"),
        Op.setError "m"] ?_, ?_⟩
  · intro op hop
    simp only [List.mem_cons, List.mem_singleton, List.not_mem_nil, or_false] at hop
    rcases hop with rfl | rfl | rfl | rfl <;> trivial
  · refine ⟨_, _, rfl, rfl, ?_⟩
    rcases C20_assertion_safety.2 id (fun _ => (0, true)) emptyContext
      [Op.addField "age" TypeFormURLEncoded, Op.int] _ _ rfl (Or.inr (Or.inl rfl)) with h | h
    · exact absurd (List.mem_cons_self _ _) (h "age" TypeFormURLEncoded)
    · exact h.1

/-! ## `Default` is inert -/

theorem withoutDefault_parts (f f' : Field) (h : f.withoutDefault = f'.withoutDefault) :
    f.Name = f'.Name ∧ f.FieldType = f'.FieldType ∧ f.Value = f'.Value ∧ f.File = f'.File ∧
      f.ErrMsg = f'.ErrMsg ∧ f.Required = f'.Required := by
  have h1 : f.withoutDefault.Name = f'.withoutDefault.Name := by rw [h]
  have h2 : f.withoutDefault.FieldType = f'.withoutDefault.FieldType := by rw [h]
  have h3 : f.withoutDefault.Value = f'.withoutDefault.Value := by rw [h]
  have h4 : f.withoutDefault.File = f'.withoutDefault.File := by rw [h]
  have h5 : f.withoutDefault.ErrMsg = f'.withoutDefault.ErrMsg := by rw [h]
  have h6 : f.withoutDefault.Required = f'.withoutDefault.Required := by rw [h]
  exact ⟨h1, h2, h3, h4, h5, h6⟩

theorem sameButDefaults_refl (m : FieldMap) : SameButDefaults m m :=
  List.forall₂_same.2 (fun _ _ => ⟨rfl, rfl⟩)

theorem sameButDefaults_symm (m m' : FieldMap) (h : SameButDefaults m m') :
    SameButDefaults m' m := by
  unfold SameButDefaults at h ⊢
  induction h with
  | nil => exact List.Forall₂.nil
  | cons h _ ih => exact List.Forall₂.cons ⟨h.1.symm, h.2.symm⟩ ih

theorem sameButDefaults_get (m m' : FieldMap) (h : SameButDefaults m m') (k : String) :
    (m.get k).withoutDefault = (m'.get k).withoutDefault := by
  unfold SameButDefaults at h
  induction h with
  | nil => rfl
  | @cons e e' l l' he _ ih =>
    obtain ⟨k₁, f₁⟩ := e
    obtain ⟨k₂, f₂⟩ := e'
    obtain ⟨hk, hf⟩ := he
    simp only at hk hf
    subst hk
    by_cases hkk : k₁ = k
    · simp only [FieldMap.get, hkk, if_true]
      exact hf
    · simp only [FieldMap.get, hkk, if_false]
      exact ih

theorem sameButDefaults_set (m m' : FieldMap) (h : SameButDefaults m m') (k : String)
    (f f' : Field) (hf : f.withoutDefault = f'.withoutDefault) :
    SameButDefaults (m.set k f) (m'.set k f') := by
  unfold SameButDefaults at h ⊢
  induction h with
  | nil => exact List.Forall₂.cons ⟨rfl, hf⟩ List.Forall₂.nil
  | @cons e e' l l' he hl ih =>
    obtain ⟨k₁, f₁⟩ := e
    obtain ⟨k₂, f₂⟩ := e'
    obtain ⟨hk, hff⟩ := he
    simp only at hk hff
    subst hk
    by_cases hkk : k₁ = k
    · simp only [FieldMap.set, hkk, if_true]
      exact List.Forall₂.cons ⟨rfl, hf⟩ hl
    · simp only [FieldMap.set, hkk, if_false]
      exact List.Forall₂.cons ⟨rfl, hff⟩ ih

theorem sameButDefaults_set_self (m : FieldMap) (k : String) (f : Field) (hk : k ∈ m.keys)
    (hf : (m.get k).withoutDefault = f.withoutDefault) : SameButDefaults m (m.set k f) := by
  induction m with
  | nil => simp [FieldMap.keys] at hk
  | cons e rest ih =>
    obtain ⟨k', f'⟩ := e
    by_cases h : k' = k
    · subst h
      simp only [FieldMap.get, if_true] at hf
      simp only [FieldMap.set, if_true]
      exact List.Forall₂.cons ⟨rfl, hf⟩ (sameButDefaults_refl rest)
    · have hk' : k ∈ FieldMap.keys rest := by
        simp only [FieldMap.keys, List.map_cons, List.mem_cons] at hk
        rcases hk with hk | hk
        · exact absurd hk.symm h
        · exact hk
      simp only [FieldMap.get, h, if_false] at hf
      simp only [FieldMap.set, h, if_false]
      exact List.Forall₂.cons ⟨rfl, rfl⟩ (ih hk' hf)

theorem sameButDefaults_firstRequiredError (l l' : List (String × Field))
    (h : SameButDefaults l l') : firstRequiredError l = firstRequiredError l' := by
  unfold SameButDefaults at h
  induction h with
  | nil => rfl
  | @cons e e' l l' he _ ih =>
    obtain ⟨k₁, f₁⟩ := e
    obtain ⟨k₂, f₂⟩ := e'
    obtain ⟨_, _, _, _, hE, hR⟩ := withoutDefault_parts f₁ f₂ he.2
    simp only [firstRequiredError, hE, hR, ih]

theorem sameButDefaults_all_nil (l l' : List (String × Field)) (h : SameButDefaults l l') :
    (∀ e ∈ l, e.2.Value = Value.nil) ↔ ∀ e ∈ l', e.2.Value = Value.nil := by
  unfold SameButDefaults at h
  induction h with
  | nil => simp
  | @cons e e' l l' he _ ih =>
    obtain ⟨_, _, hV, _⟩ := withoutDefault_parts e.2 e'.2 he.2
    simp only [List.mem_cons, forall_eq_or_imp, hV, ih]

/-- The results of `Done()` on a validator are results of `Done()` on every
validator with the same map up to default values. -/
theorem sameButDefaults_Done (w w' : Validator) (h : SameButDefaults w.Fields w'.Fields)
    (o₁ o₂ : RangeOrder w.Fields) :
    ∃ o₁' o₂' : RangeOrder w'.Fields, w'.Done o₁' o₂' = w.Done o₁ o₂ := by
  obtain ⟨l', hl', hp⟩ := List.perm_comp_forall₂ o₂.perm h
  refine ⟨RangeOrder.stored _, ⟨l', hp⟩, ?_⟩
  unfold Validator.Done
  have hE : w'.CheckIfEmpty (RangeOrder.stored _) = w.CheckIfEmpty o₁ := by
    rw [Bool.eq_iff_iff, CheckIfEmpty_iff, CheckIfEmpty_iff]
    exact (sameButDefaults_all_nil _ _ h).symm
  rw [hE, ← sameButDefaults_firstRequiredError _ _ hl']

theorem withoutDefault_required (f f' : Field) (s : String)
    (h : f.withoutDefault = f'.withoutDefault) :
    (if s = "" ∧ f.File = none then
        { f with Required := true
                 ErrMsg := "`" ++ f.Name ++ "` must be specified in " ++ f.FieldType }
      else { f with Required := true }).withoutDefault =
    (if s = "" ∧ f'.File = none then
        { f' with Required := true
                  ErrMsg := "`" ++ f'.Name ++ "` must be specified in " ++ f'.FieldType }
      else { f' with Required := true }).withoutDefault := by
  cases f
  cases f'
  simp only [Field.withoutDefault, Field.mk.injEq] at h
  obtain ⟨rfl, rfl, rfl, rfl, rfl, rfl, rfl, _, rfl, rfl⟩ := h
  split_ifs <;> rfl

theorem withoutDefault_string (f f' : Field) (h : f.withoutDefault = f'.withoutDefault) :
    ({ f with DataType := StringDataType } : Field).withoutDefault =
      ({ f' with DataType := StringDataType } : Field).withoutDefault ∧
    ({ f with DataType := StringDataType
              Value := Value.str ""
              ErrMsg := f.ErrMsg ++ coercionMsg { f with DataType := StringDataType } }
        : Field).withoutDefault =
      ({ f' with DataType := StringDataType
                 Value := Value.str ""
                 ErrMsg := f'.ErrMsg ++ coercionMsg { f' with DataType := StringDataType } }
        : Field).withoutDefault := by
  cases f
  cases f'
  simp only [Field.withoutDefault, Field.mk.injEq] at h
  obtain ⟨rfl, rfl, rfl, rfl, rfl, rfl, rfl, _, rfl, rfl⟩ := h
  exact ⟨rfl, rfl⟩

theorem withoutDefault_int (f f' : Field) (i : ℤ) (e : Option NumError)
    (h : f.withoutDefault = f'.withoutDefault) :
    ({ f with DataType := IntDataType
              Value := Value.int i
              ErrMsg :=
                if e ≠ none then
                  f.ErrMsg ++ (if f.ErrMsg = "" then f.Name ++ " must be int"
                    else " and the value must be int")
                else f.ErrMsg } : Field).withoutDefault =
      ({ f' with DataType := IntDataType
                 Value := Value.int i
                 ErrMsg :=
                   if e ≠ none then
                     f'.ErrMsg ++ (if f'.ErrMsg = "" then f'.Name ++ " must be int"
                       else " and the value must be int")
                   else f'.ErrMsg } : Field).withoutDefault := by
  cases f
  cases f'
  simp only [Field.withoutDefault, Field.mk.injEq] at h
  obtain ⟨rfl, rfl, rfl, rfl, rfl, rfl, rfl, _, rfl, rfl⟩ := h
  rfl

/-- On validators with the same cursor and the same map up to default
values, `Required()`, `String()` and `Int()` panic together or return the
same value and lead to validators that are again so related. -/
theorem sameButDefaults_call (tbl : Char → Char) (pf : String → Nat × Bool) (op : Op)
    (v v' : Validator) (hop : op = Op.required ∨ op = Op.string ∨ op = Op.int)
    (hc : v'.CurrentField = v.CurrentField) (hR : SameButDefaults v.Fields v'.Fields) :
    (call tbl pf op v = none ∧ call tbl pf op v' = none) ∨
    ∃ r w w', call tbl pf op v = some (r, w) ∧ call tbl pf op v' = some (r, w') ∧
      w'.CurrentField = w.CurrentField ∧ SameButDefaults w.Fields w'.Fields := by
  have hwd := sameButDefaults_get _ _ hR v.CurrentField
  obtain ⟨_, _, hV, _⟩ := withoutDefault_parts _ _ hwd
  rcases value_str_or_not (v.Fields.get v.CurrentField) with ⟨s, hs⟩ | hn
  · have hs' : (v'.Fields.get v'.CurrentField).Value = Value.str s := by
      rw [hc, ← hV]; exact hs
    rcases hop with rfl | rfl | rfl
    · have e := Required_of_str v s hs
      have e' := Required_of_str v' s hs'
      refine Or.inr ⟨Returned.validator, v.Required.getD v, v'.Required.getD v', ?_, ?_, ?_, ?_⟩
      · rw [call, e]
        rfl
      · rw [call, e']
        rfl
      · rw [e, e']
        exact hc
      · rw [e, e']
        simp only [Option.getD_some, hc]
        exact sameButDefaults_set _ _ hR _ _ _ (withoutDefault_required _ _ s hwd)
    · have e := String_of_str v s hs
      have e' := String_of_str v' s hs'
      refine Or.inr ⟨Returned.text s, v.String.2, v'.String.2, ?_, ?_, ?_, ?_⟩
      · rw [call, e]
      · rw [call, e']
      · rw [e, e']
        exact hc
      · rw [e, e']
        simp only [hc]
        exact sameButDefaults_set _ _ hR _ _ _ (withoutDefault_string _ _ hwd).1
    · have e := Int_of_str v s hs
      have e' := Int_of_str v' s hs'
      refine Or.inr ⟨Returned.number (ParseInt s 32).1, (v.Int.map Prod.snd).getD v,
        (v'.Int.map Prod.snd).getD v', ?_, ?_, ?_, ?_⟩
      · rw [call, e]
        rfl
      · rw [call, e']
        rfl
      · rw [e, e']
        exact hc
      · rw [e, e']
        simp only [Option.map_some', Option.getD_some, hc]
        exact sameButDefaults_set _ _ hR _ _ _ (withoutDefault_int _ _ _ _ hwd)
  · have hn' : ∀ s, (v'.Fields.get v'.CurrentField).Value ≠ Value.str s := by
      intro s
      rw [hc, ← hV]
      exact hn s
    rcases hop with rfl | rfl | rfl
    · exact Or.inl ⟨by rw [call, Required_of_not_str v hn]; rfl,
        by rw [call, Required_of_not_str v' hn']; rfl⟩
    · have e := String_of_not_str v hn
      have e' := String_of_not_str v' hn'
      refine Or.inr ⟨Returned.text "", v.String.2, v'.String.2, ?_, ?_, ?_, ?_⟩
      · rw [call, e]
      · rw [call, e']
      · rw [e, e']
        exact hc
      · rw [e, e']
        simp only [hc]
        exact sameButDefaults_set _ _ hR _ _ _ (withoutDefault_string _ _ hwd).2
    · exact Or.inl ⟨by rw [call, Int_of_not_str v hn]; rfl,
        by rw [call, Int_of_not_str v' hn']; rfl⟩

theorem sameButDefaults_run (tbl : Char → Char) (pf : String → Nat × Bool) (ops : List Op)
    (v v' : Validator) (hops : ∀ op ∈ ops, op = Op.required ∨ op = Op.string ∨ op = Op.int)
    (hc : v'.CurrentField = v.CurrentField) (hR : SameButDefaults v.Fields v'.Fields) :
    (run tbl pf ops v = none ∧ run tbl pf ops v' = none) ∨
    ∃ outs w w', run tbl pf ops v = some (outs, w) ∧ run tbl pf ops v' = some (outs, w') ∧
      w'.CurrentField = w.CurrentField ∧ SameButDefaults w.Fields w'.Fields := by
  induction ops generalizing v v' with
  | nil => exact Or.inr ⟨[], v, v', rfl, rfl, hc, hR⟩
  | cons op ops ih =>
    rcases sameButDefaults_call tbl pf op v v' (hops op (List.mem_cons_self _ _)) hc hR with
      ⟨h1, h2⟩ | ⟨r, w, w', h1, h2, hc', hR'⟩
    · left
      simp only [run, h1, h2, and_self]
    · rcases ih w w' (fun o ho => hops o (List.mem_cons_of_mem _ ho)) hc' hR' with
        ⟨g1, g2⟩ | ⟨outs, u, u', g1, g2, hc'', hR''⟩
      · left
        simp only [run, h1, h2, g1, g2, and_self]
      · right
        exact ⟨r :: outs, u, u', by simp only [run, h1, g1], by simp only [run, h2, g2],
          hc'', hR''⟩

/-- C16: when the cursor is on a registered field, `Default(d)` with a
string `d` completes, keeps the cursor, replaces the current field by itself
with `DefaultValue` set to `d` (so its raw value, `ErrMsg` and `Required`
are as before) and leaves the other entries as they were. Every following
chain of `Required()`, `String()` and `Int()` panics or completes as it
would without the call of `Default` and returns the same values, and
`Done()` after it has the same possible results. -/
theorem C16_Default_inert (tbl : Char → Char) (pf : String → Nat × Bool) (v : Validator)
    (d : String) (hcur : v.CurrentField ∈ v.Fields.keys) :
    ∃ v', v.Default (Value.str d) = some v' ∧ v'.CurrentField = v.CurrentField ∧
      v'.Fields.get v.CurrentField = { v.Fields.get v.CurrentField with DefaultValue := d } ∧
      LeavesOthers v.CurrentField v.Fields v'.Fields ∧
      ∀ ops : List Op, (∀ op ∈ ops, op = Op.required ∨ op = Op.string ∨ op = Op.int) →
        (run tbl pf ops v').map Prod.fst = (run tbl pf ops v).map Prod.fst ∧
        ∀ outs w outs' w', run tbl pf ops v = some (outs, w) →
          run tbl pf ops v' = some (outs', w') →
          ∀ res, (∃ o₁ o₂ : RangeOrder w'.Fields, w'.Done o₁ o₂ = res) ↔
            ∃ o₁ o₂ : RangeOrder w.Fields, w.Done o₁ o₂ = res := by
  refine ⟨_, rfl, rfl, FieldMap.get_set_same _ _ _, leavesOthers_set _ _ _, ?_⟩
  intro ops hops
  have hR : SameButDefaults v.Fields
      (v.Fields.set v.CurrentField { v.Fields.get v.CurrentField with DefaultValue := d }) :=
    sameButDefaults_set_self _ _ _ hcur rfl
  rcases sameButDefaults_run tbl pf ops v
      { Context := v.Context, CurrentField := v.CurrentField,
        Fields := v.Fields.set v.CurrentField
          { v.Fields.get v.CurrentField with DefaultValue := d } } hops rfl hR with
    ⟨g1, g2⟩ | ⟨outs₀, u, u', g1, g2, _, hR'⟩
  · refine ⟨by rw [g1, g2], ?_⟩
    intro outs w outs' w' h
    rw [g1] at h
    simp at h
  · refine ⟨by rw [g1, g2]; rfl, ?_⟩
    intro outs w outs' w' h h' res
    rw [g1] at h
    rw [g2] at h'
    simp only [Option.some.injEq, Prod.mk.injEq] at h h'
    obtain ⟨_, rfl⟩ := h
    obtain ⟨_, rfl⟩ := h'
    constructor
    · rintro ⟨o₁, o₂, rfl⟩
      exact sameButDefaults_Done _ _ (sameButDefaults_symm _ _ hR') o₁ o₂
    · rintro ⟨o₁, o₂, rfl⟩
      exact sameButDefaults_Done _ _ hR' o₁ o₂

/-- Witness of C16: `Default("18")` on the validator reached by
`Form("age").Required()`, followed by `Required()` and `Int()`. -/
theorem C16_Default_inert_witness :
    ∃ v', requiredAgeState.Default (Value.str "18") = some v' ∧
      (v'.Fields.get "age").DefaultValue = "18" ∧
      (v'.Fields.get "age").Value = Value.str "" ∧
      (run id (fun _ => (0, true)) [Op.required, Op.int] v').map Prod.fst =
        some [Returned.validator, Returned.number 0] ∧
      (run id (fun _ => (0, true)) [Op.required, Op.int] requiredAgeState).map Prod.fst =
        some [Returned.validator, Returned.number 0] := by
  obtain ⟨v', h1, h2, h3, _, h5⟩ :=
    C16_Default_inert id (fun _ => (0, true)) requiredAgeState "18" (by decide)
  have h6 := (h5 [Op.required, Op.int] (by
    intro op hop
    simp only [List.mem_cons, List.mem_singleton, List.not_mem_nil, or_false] at hop
    rcases hop with rfl | rfl
    · exact Or.inl rfl
    · exact Or.inr (Or.inr rfl))).1
  have h7 : (run id (fun _ => (0, true)) [Op.required, Op.int] requiredAgeState).map Prod.fst =
      some [Returned.validator, Returned.number 0] := by decide
  refine ⟨v', h1, ?_, ?_, h6.trans h7, h7⟩
  · have : (v'.Fields.get requiredAgeState.CurrentField).DefaultValue = "18" := by rw [h3]
    exact this
  · have : (v'.Fields.get requiredAgeState.CurrentField).Value = Value.str "" := by
      rw [h3]
      decide
    exact this

/-! ## `Optional` -/

theorem FieldMap.nodup_keys_set (m : FieldMap) (k : String) (f : Field) (h : m.keys.Nodup) :
    (m.set k f).keys.Nodup := by
  rw [FieldMap.keys_set]
  by_cases hin : k ∈ m.keys
  · rw [if_pos hin]; exact h
  · rw [if_neg hin]
    exact List.Nodup.append h (List.nodup_singleton k) (by simpa using hin)

theorem FieldMap.get_of_mem (m : FieldMap) (k : String) (f : Field) (h : m.keys.Nodup)
    (hm : (k, f) ∈ m) : m.get k = f := by
  induction m with
  | nil => simp at hm
  | cons e rest ih =>
    obtain ⟨k', f'⟩ := e
    simp only [FieldMap.keys, List.map_cons, List.nodup_cons, List.mem_map, not_exists,
      not_and] at h
    rcases List.mem_cons.1 hm with he | he
    · simp only [Prod.mk.injEq] at he
      obtain ⟨rfl, rfl⟩ := he
      simp [FieldMap.get]
    · have hne : k' ≠ k := fun e => h.1 (k, f) he e.symm
      simp only [FieldMap.get, hne, if_false]
      exact ih h.2 he

/-- When the field `n` holds a value and is not required, on a map without
repeated keys, an error returned by `Done()` is the message of another
field, itself required and in error. -/
theorem Done_reports_other (w : Validator) (n : String) (hnd : w.Fields.keys.Nodup)
    (hn : n ∈ w.Fields.keys) (hval : (w.Fields.get n).Value ≠ Value.nil)
    (hreq : (w.Fields.get n).Required = false) (o₁ o₂ : RangeOrder w.Fields) (res : String)
    (hres : w.Done o₁ o₂ = some res) :
    ∃ e ∈ w.Fields, e.1 ≠ n ∧ e.2.Required = true ∧ e.2.ErrMsg ≠ "" ∧ res = e.2.ErrMsg := by
  have hEmp : ¬ w.CheckIfEmpty o₁ = true := by
    rw [CheckIfEmpty_iff]
    intro hall
    exact hval (hall _ (FieldMap.get_mem _ _ hn))
  unfold Validator.Done at hres
  rw [if_neg hEmp] at hres
  obtain ⟨e, he, hr, hm, hmsg⟩ := firstRequiredError_eq_some _ _ hres
  have he' := (o₂.perm.mem_iff).1 he
  refine ⟨e, he', ?_, hr, hm, hmsg.symm⟩
  intro hk
  have hg := FieldMap.get_of_mem _ e.1 e.2 hnd he'
  rw [hk] at hg
  rw [← hg, hreq] at hr
  exact absurd hr (by simp)

/-- After `Required()` and `Optional()` on a field registered without value
and file, on a map without repeated keys, the presence message is on the
field, the field is not required, and an error returned by `Done()` is the
message of another field. -/
theorem Done_after_Optional (tbl : Char → Char) (v : Validator) (n t : String)
    (hnd : v.Fields.keys.Nodup)
    (hval : ((v.AddField tbl n t).Fields.get n).Value = Value.str "")
    (hfile : ((v.AddField tbl n t).Fields.get n).File = none) :
    ∃ v₁, (v.AddField tbl n t).Required = some v₁ ∧
      (v₁.Optional.Fields.get n).ErrMsg ≠ "" ∧
      (v₁.Optional.Fields.get n).Required = false ∧
      ∀ (o₁ o₂ : RangeOrder v₁.Optional.Fields) (res : String),
        v₁.Optional.Done o₁ o₂ = some res →
        ∃ e ∈ v₁.Optional.Fields, e.1 ≠ n ∧ e.2.Required = true ∧ e.2.ErrMsg ≠ "" ∧
          res = e.2.ErrMsg := by
  have hcur : (v.AddField tbl n t).CurrentField = n := rfl
  have hR := Required_of_str (v.AddField tbl n t) "" (by rw [hcur]; exact hval)
  rw [hcur] at hR
  simp only [hfile, and_self, if_true] at hR
  refine ⟨_, hR, ?_, ?_, ?_⟩
  · simp only [Validator.Optional, FieldMap.get_set_same]
    exact requiredMsg_ne_empty _ _
  · simp only [Validator.Optional, FieldMap.get_set_same]
  · intro o₁ o₂ res hres
    refine Done_reports_other _ n ?_ ?_ ?_ ?_ o₁ o₂ res hres
    · exact FieldMap.nodup_keys_set _ _ _
        (FieldMap.nodup_keys_set _ _ _ (FieldMap.nodup_keys_set _ _ _ hnd))
    · exact FieldMap.mem_keys_set _ _ _
    · simp only [Validator.Optional, FieldMap.get_set_same, hval]
      simp
    · simp only [Validator.Optional, FieldMap.get_set_same]

/-- C14: `Optional()` keeps the cursor and replaces the current field by
itself with `Required` set to false, so nothing else of it changes, its
`ErrMsg` included. For a field registered on a new validator with an empty
raw value and no file, `Required()` records the presence message and
`Done()` reports it; after `Optional()` the message is still on the field,
the field is not required, and `Done()` returns no error. When other fields
were registered before (a map without repeated keys), an error that `Done()`
returns after `Optional()` is the message of another field. -/
theorem C14_Optional_frame :
    (∀ v : Validator, v.Optional.CurrentField = v.CurrentField ∧
      v.Optional.Fields.get v.CurrentField =
        { v.Fields.get v.CurrentField with Required := false } ∧
      (v.Optional.Fields.get v.CurrentField).ErrMsg = (v.Fields.get v.CurrentField).ErrMsg) ∧
    (∀ (tbl : Char → Char) (ctx : Context) (n t : String),
      (((New ctx).AddField tbl n t).Fields.get n).Value = Value.str "" →
      (((New ctx).AddField tbl n t).Fields.get n).File = none →
      ∃ v₁, ((New ctx).AddField tbl n t).Required = some v₁ ∧
        (v₁.Fields.get n).ErrMsg ≠ "" ∧
        (∀ o₁ o₂ : RangeOrder v₁.Fields, v₁.Done o₁ o₂ = some (v₁.Fields.get n).ErrMsg) ∧
        (v₁.Optional.Fields.get n).ErrMsg = (v₁.Fields.get n).ErrMsg ∧
        (v₁.Optional.Fields.get n).Required = false ∧
        ∀ o₁ o₂ : RangeOrder v₁.Optional.Fields, v₁.Optional.Done o₁ o₂ = none) ∧
    (∀ (tbl : Char → Char) (v : Validator) (n t : String), v.Fields.keys.Nodup →
      ((v.AddField tbl n t).Fields.get n).Value = Value.str "" →
      ((v.AddField tbl n t).Fields.get n).File = none →
      ∃ v₁, (v.AddField tbl n t).Required = some v₁ ∧
        (v₁.Optional.Fields.get n).ErrMsg ≠ "" ∧
        (v₁.Optional.Fields.get n).Required = false ∧
        ∀ (o₁ o₂ : RangeOrder v₁.Optional.Fields) (res : String),
          v₁.Optional.Done o₁ o₂ = some res →
          ∃ e ∈ v₁.Optional.Fields, e.1 ≠ n ∧ e.2.Required = true ∧ e.2.ErrMsg ≠ "" ∧
            res = e.2.ErrMsg) := by
  refine ⟨?_, ?_, fun tbl v n t hnd hval hfile => Done_after_Optional tbl v n t hnd hval hfile⟩
  · intro v
    refine ⟨rfl, FieldMap.get_set_same _ _ _, ?_⟩
    show ((v.Fields.set v.CurrentField _).get v.CurrentField).ErrMsg = _
    rw [FieldMap.get_set_same]
  · intro tbl ctx n t hval hfile
    have hA : (New ctx).AddField tbl n t =
        { Context := ctx, CurrentField := n,
          Fields := [(n, newField (extract tbl ctx n t) n t)] } := rfl
    rw [hA] at hval hfile ⊢
    generalize newField (extract tbl ctx n t) n t = F at hval hfile ⊢
    have hget : FieldMap.get [(n, F)] n = F := by simp [FieldMap.get]
    rw [hget] at hval hfile
    have hmsg := requiredMsg_ne_empty F.Name F.FieldType
    have hR := Required_of_str
      { Context := ctx, CurrentField := n, Fields := [(n, F)] } "" (by rw [hget]; exact hval)
    simp only [hget, hfile, and_self, if_true, FieldMap.set] at hR
    refine ⟨_, hR, ?_, ?_, ?_, ?_, ?_⟩
    · simpa [FieldMap.get] using hmsg
    · intro o₁ o₂
      have hEmp : ¬ Validator.CheckIfEmpty _ o₁ = true := by
        rw [CheckIfEmpty_iff]
        simp [hval]
      have h₂ := List.perm_singleton.1 o₂.perm
      unfold Validator.Done
      rw [if_neg hEmp, h₂]
      simp [firstRequiredError, FieldMap.get, hmsg]
    · simp [Validator.Optional, FieldMap.get, FieldMap.set]
    · simp [Validator.Optional, FieldMap.get, FieldMap.set]
    · intro o₁ o₂
      have hEmp : ¬ Validator.CheckIfEmpty _ o₁ = true := by
        rw [CheckIfEmpty_iff]
        simp [Validator.Optional, FieldMap.get, FieldMap.set, hval]
      have hp := o₂.perm
      simp only [Validator.Optional, FieldMap.get, FieldMap.set, if_true] at hp
      have h₂ := List.perm_singleton.1 hp
      unfold Validator.Done
      rw [if_neg hEmp, h₂]
      simp [firstRequiredError]

/-- Witness of C14: the field `age` of a request without values. -/
theorem C14_Optional_frame_witness :
    ∃ v₁, ((New emptyContext).AddField id "age" "form-urlencoded").Required = some v₁ ∧
      (v₁.Fields.get "age").ErrMsg ≠ "" ∧
      (∀ o₁ o₂ : RangeOrder v₁.Fields, v₁.Done o₁ o₂ = some (v₁.Fields.get "age").ErrMsg) ∧
      (v₁.Optional.Fields.get "age").ErrMsg = (v₁.Fields.get "age").ErrMsg ∧
      (v₁.Optional.Fields.get "age").Required = false ∧
      ∀ o₁ o₂ : RangeOrder v₁.Optional.Fields, v₁.Optional.Done o₁ o₂ = none :=
  C14_Optional_frame.2.1 id emptyContext "age" "form-urlencoded" (by decide) (by decide)

end Validation
